import Mathlib

/-!
Verification of the fastchain task-routing and state-management core.

The Python sources are embedded shallowly:

* `src/routing/decision_maker.py` (`DecisionMaker`) — agent scoring and routing;
* `src/tools/base.py` (`Tool`, `ToolRegistry`) — tool execution, selection,
  registration;
* `src/context/context_manager.py` (`ContextManager`, `recursive_update`) —
  the in-memory session store with deep merge and garbage collection;
* `src/tools/discovery.py` (`ToolDiscovery`) — the adaptive-learning ledger.

Python dicts are modelled as insertion-ordered association lists, floats as
rationals, exceptions as `Except`, and wall-clock readings (`time.time()`,
`datetime.now()`) as explicit rational-valued parameters.
-/

namespace FastChain

/-! ## Decision engine (src/routing/decision_maker.py) -/

/-- A metric field value as stored in an agent record: either a value that
Python `float()` conversion / arithmetic accepts (modelled by its rational
value), or a value on which conversion or arithmetic raises (`bad`). -/
inductive MVal where
  | num (q : ℚ)
  | bad
deriving DecidableEq

/-- Python `float(v)`. -/
def MVal.toFloat : MVal → Except String ℚ
  | .num q => .ok q
  | .bad => .error ("float conversion failed")

/-- The `performance` entry of an agent record: a dict with optional
`success_rate` / `request_count` / `response_time_ms` fields, a direct
scalar, or `None`. -/
inductive Perf where
  | dict (successRate requestCount responseTimeMs : Option MVal)
  | direct (v : MVal)
  | null
deriving DecidableEq

/-- An agent record, with the fields read by `DecisionMaker`. -/
structure AgentMeta where
  capabilities : List String
  status : String
  load : Option MVal
  performance : Option Perf
deriving DecidableEq

/-- The catalog held by `AgentRegistry._agents`: an insertion-ordered dict
from agent id to record (`get_all_agents` returns a copy of it). -/
abbrev Catalog := List (String × AgentMeta)

/-- Errors raised by the decision maker (all are `RuntimeError`s in the
source; the constructors record which message was used).
`valueError` stands for Python's `ValueError` from `max()` on an empty
sequence, which the candidate check makes unreachable. -/
inductive RouteErr where
  | noCapableAgents (capability : String)
  | noActiveAgents (capability : String)
  | invalidMetrics (agentId : String)
  | missingMetrics (agentId : String)
  | valueError
deriving DecidableEq

/-- Python `performance.get(field, default)` followed by use of the value in
arithmetic: a missing field yields the default, a `bad` value raises. -/
def fieldOr (v : Option MVal) (d : ℚ) : Except String ℚ :=
  match v with
  | none => .ok d
  | some (.num q) => .ok q
  | some .bad => .error ("bad value")

/-- Body of the `get_load_metrics` loop for one record: the explicit `load`
if present, else `min(1.0, request_count * response_time_ms / 10000)` with
defaults `request_count = 0`, `response_time_ms = 100`; a non-dict
`performance` raises (`.get` on a non-dict is an `AttributeError`). -/
def agentLoad (meta : AgentMeta) : Except String ℚ :=
  match meta.load with
  | some v => v.toFloat
  | none =>
    match meta.performance with
    | none => .ok (min 1 ((0 * 100 : ℚ) / 10000))
    | some (.dict _ rc rt) =>
      match fieldOr rc 0, fieldOr rt 100 with
      | .ok rcv, .ok rtv => .ok (min 1 (rcv * rtv / 10000))
      | .error e, _ => .error e
      | _, .error e => .error e
    | some (.direct _) => .error ("AttributeError")
    | some .null => .error ("AttributeError")

/-- Body of the `get_performance_metrics` loop for one record: a dict
`performance` must contain `success_rate` (a missing block defaults to the
empty dict, which is missing it); a non-dict value is converted directly;
`None` yields `0.0`. -/
def agentPerformance (meta : AgentMeta) : Except String ℚ :=
  match meta.performance with
  | none => .error ("Missing success_rate in performance metrics")
  | some (.dict sr _ _) =>
    match sr with
    | none => .error ("Missing success_rate in performance metrics")
    | some v => v.toFloat
  | some (.direct v) => v.toFloat
  | some .null => .ok 0

/-- Python `DecisionMaker.get_load_metrics`: iterates over the whole catalog; the
first record whose load cannot be computed aborts the call. -/
def getLoadMetrics : Catalog → Except RouteErr (List (String × ℚ))
  | [] => .ok []
  | (aid, meta) :: rest =>
    match agentLoad meta with
    | .ok l =>
      match getLoadMetrics rest with
      | .ok ms => .ok ((aid, l) :: ms)
      | .error e => .error e
    | .error _ => .error (.invalidMetrics aid)

/-- Python `DecisionMaker.get_performance_metrics`: iterates over the whole
catalog; the first bad record aborts the call. -/
def getPerformanceMetrics : Catalog → Except RouteErr (List (String × ℚ))
  | [] => .ok []
  | (aid, meta) :: rest =>
    match agentPerformance meta with
    | .ok p =>
      match getPerformanceMetrics rest with
      | .ok ms => .ok ((aid, p) :: ms)
      | .error e => .error e
    | .error _ => .error (.invalidMetrics aid)

/-- The `all_candidates` list of `get_candidate_agents`: ids whose
capability list contains the required capability, in catalog order. -/
def allCandidates (cat : Catalog) (cap : String) : List String :=
  (cat.filter (fun p => p.2.capabilities.contains cap)).map Prod.fst

/-- The `active_candidates` list of `get_candidate_agents`: capable ids
whose status is `active`, in catalog order. -/
def activeCandidates (cat : Catalog) (cap : String) : List String :=
  (cat.filter (fun p =>
    p.2.capabilities.contains cap && p.2.status == "active")).map Prod.fst

/-- Python `DecisionMaker.get_candidate_agents`. -/
def getCandidateAgents (cat : Catalog) (cap : String) :
    Except RouteErr (List String) :=
  if allCandidates cat cap = [] then .error (.noCapableAgents cap)
  else if activeCandidates cat cap = [] then .error (.noActiveAgents cap)
  else .ok (activeCandidates cat cap)

/-- Python `metrics.get(agent_id, default)` on a metrics dict. -/
def lookupD (m : List (String × ℚ)) (k : String) (d : ℚ) : ℚ :=
  match m.find? (fun p => p.1 == k) with
  | some p => p.2
  | none => d

/-- Python `DecisionMaker.calculate_agent_score` with the constructor weights
`weight_performance = 0.6`, `weight_load = 0.4` and the defaults
`load = 1.0`, `performance = 0.5` for ids absent from the metric dicts. -/
def calculateAgentScore (aid : String)
    (loadMetrics perfMetrics : List (String × ℚ)) : ℚ :=
  let load := lookupD loadMetrics aid 1
  let perf := lookupD perfMetrics aid 0.5
  0.6 * perf + 0.4 * (1 - load)

/-- One comparison of Python `max`: the running best is replaced only when
the key is strictly greater. -/
def maxStep (best x : String × ℚ) : String × ℚ :=
  if best.2 < x.2 then x else best

/-- Python `max(items, key = lambda x: x[1])`: scans left to right, so the
first maximal element wins; `none` models the `ValueError` on an empty
sequence. -/
def maxByScore : List (String × ℚ) → Option (String × ℚ)
  | [] => none
  | p :: rest => some (rest.foldl maxStep p)

/-- Python `agent_id in metrics` on a metrics dict. -/
def hasKey (m : List (String × ℚ)) (k : String) : Bool :=
  m.any (fun p => p.1 == k)

/-- One entry of the `candidate_scores` dict comprehension. -/
def scoreEntry (loadMetrics perfMetrics : List (String × ℚ))
    (aid : String) : String × ℚ :=
  (aid, calculateAgentScore aid loadMetrics perfMetrics)

/-- Python `DecisionMaker.route_task`, up to the returned agent id.  The final
write-back of `{last_selected, current_task}` through the registry touches
fields no claim reads and does not affect the returned id; it is omitted. -/
def routeTask (cat : Catalog) (cap : String) : Except RouteErr String :=
  match getCandidateAgents cat cap with
  | .error e => .error e
  | .ok candidates =>
    match getLoadMetrics cat with
    | .error e => .error e
    | .ok loadMetrics =>
      match getPerformanceMetrics cat with
      | .error e => .error e
      | .ok perfMetrics =>
        match candidates.find?
            (fun aid => !(hasKey loadMetrics aid && hasKey perfMetrics aid)) with
        | some aid => .error (.missingMetrics aid)
        | none =>
          let scores := candidates.map (scoreEntry loadMetrics perfMetrics)
          match maxByScore scores with
          | some best => .ok best.1
          | none => .error .valueError

/-! ## Tools (src/tools/base.py) -/

/-- Python `ToolMetrics` (dataclass defaults: everything zero / unset). -/
structure ToolMetrics where
  execution_time : ℚ := 0
  success_rate : ℚ := 0
  last_execution : Option ℚ := none
  total_executions : ℕ := 0
  failed_executions : ℕ := 0
deriving DecidableEq

/-- Parameter and result dicts of a tool invocation. -/
abbrev Params := List (String × String)

abbrev ToolData := List (String × String)

/-- Python `ToolContext`. -/
structure ToolCtx where
  intent : String
  confidence : ℚ
  entities : List (String × List String)
  metadata : List (String × String) := []
  chainContext : Option ToolData := none

/-- Python `ToolResult`. -/
structure ToolResult where
  success : Bool
  data : ToolData
  nextTools : List String := []
  errorMessage : Option String := none
deriving DecidableEq

/-- A tool class: the static attributes plus the two overridden methods.
`cvRef` names the list cell that the class attribute `compatible_versions`
denotes — Python class attributes are shared mutable objects, so two
classes may denote the same cell (a subclass that does not redeclare the
attribute) or different ones. -/
structure ToolClass where
  name : String
  description : String := ""
  requiredParams : List String
  version : String
  cvRef : ℕ
  canHandleImpl : ToolCtx → Except String ℚ
  executeImpl : Params → ToolCtx → Except String ToolData

/-- A tool instance: its class plus its own `metrics` attribute. -/
structure Tool where
  cls : ToolClass
  metrics : ToolMetrics

/-- Python `Tool.__init__`: raises `ValueError` on an empty name, else starts with
fresh metrics. -/
def instantiate (c : ToolClass) : Except String Tool :=
  if c.name = "" then .error ("Tool must have a name")
  else .ok ⟨c, {}⟩

/-- Python `Tool.validate_params`: `None` (or any non-dict) fails; otherwise every
required name must be a key of the params dict. -/
def Tool.validateParams (t : Tool) (params : Option Params) : Bool :=
  match params with
  | none => false
  | some ps => t.cls.requiredParams.all (fun r => ps.any (fun p => p.1 == r))

/-- Python `Tool.execute`: counts the call, runs `_execute_impl`, and updates the
metrics — on success the running average `execution_time`, `last_execution`
and `success_rate`; on an exception only `failed_executions` and
`success_rate`.  The measured duration and the current time are passed in
explicitly. -/
def Tool.execute (t : Tool) (params : Params) (ctx : ToolCtx)
    (duration now : ℚ) : Tool × ToolResult :=
  let m := t.metrics
  let total : ℕ := m.total_executions + 1
  match t.cls.executeImpl params ctx with
  | .ok data =>
    let m' : ToolMetrics :=
      { m with
        total_executions := total
        execution_time :=
          (m.execution_time * ((total : ℚ) - 1) + duration) / (total : ℚ)
        last_execution := some now
        success_rate := ((total : ℚ) - (m.failed_executions : ℚ)) / (total : ℚ) }
    (⟨t.cls, m'⟩, { success := true, data := data })
  | .error e =>
    let failed : ℕ := m.failed_executions + 1
    let m' : ToolMetrics :=
      { m with
        total_executions := total
        failed_executions := failed
        success_rate := ((total : ℚ) - (failed : ℚ)) / ((max total 1 : ℕ) : ℚ) }
    (⟨t.cls, m'⟩, { success := false, data := [], errorMessage := some e })

/-- The confidence adjustment of `select_tool`:
`raw * (0.8 + 0.2 * success_rate)`. -/
def adjustedConfidence (t : Tool) (raw : ℚ) : ℚ :=
  raw * (0.8 + 0.2 * t.metrics.success_rate)

/-- One step of the `select_tool` loop: a tool throwing in `can_handle` is
skipped; otherwise the running best is replaced when the adjusted
confidence strictly beats it and clears `min_confidence`. -/
def selectStep (ctx : ToolCtx) (minConf : ℚ) (best : Option Tool × ℚ)
    (t : Tool) : Option Tool × ℚ :=
  match t.cls.canHandleImpl ctx with
  | .error _ => best
  | .ok raw =>
    let adj := adjustedConfidence t raw
    if best.2 < adj ∧ minConf ≤ adj then (some t, adj) else best

/-- Python `ToolRegistry.select_tool` over the registry's tools in dict order,
starting from `best_tool = None`, `best_confidence = 0.0`.  (The
construction of the `ToolContext` from the raw context dict is elided: the
context is taken already built.) -/
def selectTool (tools : List Tool) (ctx : ToolCtx) (minConf : ℚ) :
    Option Tool :=
  (tools.foldl (selectStep ctx minConf) (none, 0)).1

/-- Insertion-ordered dict write: overwriting keeps the key's position, a
new key is appended. -/
def updAssoc {α : Type} : List (String × α) → String → α → List (String × α)
  | [], k, v => [(k, v)]
  | p :: rest, k, v =>
    if p.1 == k then (p.1, v) :: rest else p :: updAssoc rest k v

/-- Dict lookup. -/
def lookupAssoc {α : Type} (l : List (String × α)) (k : String) : Option α :=
  (l.find? (fun p => p.1 == k)).map Prod.snd

/-- Python `ToolRegistry` state: `_tools` and `_version_history`, plus the heap of
`compatible_versions` list cells that the registered classes point into. -/
structure ToolRegistryState where
  heap : List (List String)
  tools : List (String × Tool)
  versionHistory : List (String × List String)

/-- A fresh registry (`ToolRegistry.__init__`); the heap holds the
`compatible_versions` lists the tool classes were declared with. -/
def ToolRegistryState.init (heap : List (List String)) : ToolRegistryState :=
  ⟨heap, [], []⟩

/-- Python `ToolRegistry.register`: instantiates the class; if a tool of the same
name exists with a different version, appends the old version string to the
*old* instance's `compatible_versions` list cell; then overwrites the
`_tools` entry with the new instance and appends the new version to
`_version_history`. -/
def register (st : ToolRegistryState) (c : ToolClass) :
    Except String ToolRegistryState :=
  match instantiate c with
  | .error e => .error e
  | .ok tool =>
    let st1 :=
      match lookupAssoc st.tools c.name with
      | some old =>
        if old.cls.version ≠ tool.cls.version then
          { st with heap := (st.heap.set old.cls.cvRef
              ((st.heap.getD old.cls.cvRef []) ++ [old.cls.version])) }
        else st
      | none => st
    let hist := (lookupAssoc st1.versionHistory c.name).getD []
    .ok { st1 with
      tools := updAssoc st1.tools c.name tool
      versionHistory := updAssoc st1.versionHistory c.name (hist ++ [c.version]) }

/-- The `compatible_versions` list a tool instance currently denotes. -/
def compatibleVersions (st : ToolRegistryState) (t : Tool) : List String :=
  st.heap.getD t.cls.cvRef []

/-! ## Session store (src/context/context_manager.py, in-memory backend) -/

mutual
/-- A JSON-like context value: a nested dict, a number (timestamps
included), or a string. -/
inductive JVal where
  | obj (o : JObj)
  | num (q : ℚ)
  | str (s : String)
deriving DecidableEq

/-- An insertion-ordered dict of context values. -/
inductive JObj where
  | nil
  | cons (k : String) (v : JVal) (rest : JObj)
deriving DecidableEq
end

/-- Dict lookup on a context object. -/
def JObj.lookup : JObj → String → Option JVal
  | .nil, _ => none
  | .cons k v rest, key => if k == key then some v else rest.lookup key

/-- Python `d[key] = value` on a context object: overwriting keeps the key's
position, a new key is appended. -/
def JObj.setKey : JObj → String → JVal → JObj
  | .nil, key, val => .cons key val .nil
  | .cons k v rest, key, val =>
    if k == key then .cons k val rest else .cons k v (rest.setKey key val)

/-- The keys of a context object, in order. -/
def JObj.keys : JObj → List String
  | .nil => []
  | .cons k _ rest => k :: rest.keys

mutual
/-- Python `recursive_update(original, updates)`: for each key of `updates` in
order, if both the new value and the existing value are dicts they are
merged recursively, otherwise the new value replaces the old one. -/
def recursiveUpdate : JObj → JObj → JObj
  | orig, .nil => orig
  | orig, .cons k v rest => recursiveUpdate (recursiveUpdateKey orig k v) rest

/-- One key of the `recursive_update` loop body. -/
def recursiveUpdateKey : JObj → String → JVal → JObj
  | orig, k, .obj u =>
    match orig.lookup k with
    | some (.obj o) => orig.setKey k (.obj (recursiveUpdate o u))
    | _ => orig.setKey k (.obj u)
  | orig, k, v => orig.setKey k v
end

/-- Python `ContextManager._context_store`: session id to context dict; each
session dict carries its `_timestamp` key. -/
abbrev Store := List (String × JObj)

/-- Python `self._context_store.get(session_id)` as an option. -/
def lookupStore (s : Store) (sid : String) : Option JObj :=
  lookupAssoc s sid

/-- Python `ContextManager.get_context` (in-memory): the session's dict, or the
empty dict for an unknown session (`.get(session_id, {}).copy()`). -/
def getContext (s : Store) (sid : String) : JObj :=
  (lookupStore s sid).getD .nil

/-- Python `ContextManager.update_partial_context` (in-memory): create the session
with a fresh timestamp if needed, `recursive_update` it with the partial
tree, then refresh `_timestamp`. -/
def updatePartialContext (s : Store) (sid : String) (partialTree : JObj)
    (now : ℚ) : Store :=
  let cur :=
    match lookupStore s sid with
    | some d => d
    | none => JObj.cons ("_timestamp") (.num now) .nil
  updAssoc s sid ((recursiveUpdate cur partialTree).setKey ("_timestamp") (.num now))

/-- Configuration fields of `ContextManager` read by the GC sweep. -/
structure CMConfig where
  eventEmission : Bool
  sessionExpiration : ℚ

/-- Python `ContextManager._emit_event` for one event: the notification fires only
when event emission is enabled. -/
def emitEvent (cfg : CMConfig) (sid etype : String) : List (String × String) :=
  if cfg.eventEmission then [(sid, etype)] else []

/-- The expiry test of the GC worker:
`now - context.get("_timestamp", now) > self.session_expiration`.  (A
non-numeric `_timestamp`, which the store's own operations never produce,
is treated like the `now` default.) -/
def sessionExpiredAt (ttl now : ℚ) (ctx : JObj) : Bool :=
  match ctx.lookup ("_timestamp") with
  | some (.num t) => decide (now - t > ttl)
  | _ => decide (now - now > ttl)

/-- Python `del self._context_store[session_id]` (the id occurs at most once in a
dict, so erasing the first occurrence is the dict deletion). -/
def eraseStore (s : Store) (sid : String) : Store :=
  s.eraseP (fun p => p.1 == sid)

/-- One iteration of the `gc_worker` loop body: collect the expired session
ids, delete each, and fire one `garbage_collected` event notification per
deletion.  Returns the swept store and the emitted events. -/
def gcSweep (cfg : CMConfig) (now : ℚ) (s : Store) :
    Store × List (String × String) :=
  let expired :=
    (s.filter (fun p => sessionExpiredAt cfg.sessionExpiration now p.2)).map
      Prod.fst
  (expired.foldl eraseStore s,
   expired.foldl (fun evs sid => evs ++ emitEvent cfg sid ("garbage_collected")) [])

/-! ## Discovery learner (src/tools/discovery.py) -/

/-- Per-tool entry of `performance_history["tools"]`. -/
structure PerfStats where
  successCount : ℕ := 0
  totalExecutions : ℕ := 0
  avgExecutionTime : ℚ := 0
  intentPatterns : List (String × (ℕ × ℕ)) := []
deriving DecidableEq

/-- A learned `ToolPattern` entry of `tool_patterns["patterns"]`. -/
structure Pattern where
  toolName : String
  intent : String
  entitiesPresent : List String
  metadataKeys : List String
  learnedAt : ℚ
deriving DecidableEq

/-- Python `ToolDiscovery` state: the performance ledger and the pattern store
(with their `last_updated` stamps). -/
structure DiscoveryState where
  tools : List (String × PerfStats)
  patterns : List Pattern
  historyUpdated : ℚ
  patternsUpdated : ℚ
deriving DecidableEq

/-- The context dict passed to `record_tool_execution`: an optional
`intent` (defaulted to `"unknown"`), and the `entities` / `metadata`
dicts, of which only the keys are read. -/
structure DCtx where
  intent : Option String
  entities : List (String × String)
  metadata : List (String × String)

/-- Python `set(a) == set(b)` on two key lists. -/
def eqAsSet (a b : List String) : Bool :=
  a.all (fun x => b.contains x) && b.all (fun x => a.contains x)

/-- Match of a stored pattern against a `(tool_name, intent, entity-key-set)`
combination, exactly as `_learn_tool_pattern` deduplicates. -/
def patternMatches (p : Pattern) (tn intent : String) (ek : List String) :
    Bool :=
  p.toolName == tn && p.intent == intent && eqAsSet p.entitiesPresent ek

/-- The `new_pattern` dict built by `_learn_tool_pattern`. -/
def newPatternOf (tn : String) (ctx : DCtx) (now : ℚ) : Pattern :=
  { toolName := tn
    intent := ctx.intent.getD ("unknown")
    entitiesPresent := ctx.entities.map Prod.fst
    metadataKeys := ctx.metadata.map Prod.fst
    learnedAt := now }

/-- Python `ToolDiscovery._learn_tool_pattern`: build the candidate pattern and
append it only if no stored pattern matches on
`(tool_name, intent, set(entities_present))`; a duplicate changes nothing. -/
def learnToolPattern (st : DiscoveryState) (tn : String) (ctx : DCtx)
    (now : ℚ) : DiscoveryState :=
  let newPattern : Pattern := newPatternOf tn ctx now
  if st.patterns.any (fun p =>
      patternMatches p tn newPattern.intent newPattern.entitiesPresent) then
    st
  else
    { st with patterns := st.patterns ++ [newPattern], patternsUpdated := now }

/-- Python `ToolDiscovery.record_tool_execution`: update the per-tool counters,
the rolling average execution time and the per-intent counters, and, only
on success, attempt to learn a new pattern.  (The JSON save calls are
I/O-only and elided.) -/
def recordToolExecution (st : DiscoveryState) (tn : String) (ctx : DCtx)
    (success : Bool) (executionTime now : ℚ) : DiscoveryState :=
  let stats := (lookupAssoc st.tools tn).getD {}
  let total : ℕ := stats.totalExecutions + 1
  let sc : ℕ := if success then stats.successCount + 1 else stats.successCount
  let avg : ℚ :=
    (stats.avgExecutionTime * ((total : ℚ) - 1) + executionTime) / (total : ℚ)
  let intent := ctx.intent.getD ("unknown")
  let ip := (lookupAssoc stats.intentPatterns intent).getD (0, 0)
  let ip' : ℕ × ℕ := (ip.1 + 1, if success then ip.2 + 1 else ip.2)
  let stats' : PerfStats :=
    { successCount := sc
      totalExecutions := total
      avgExecutionTime := avg
      intentPatterns := updAssoc stats.intentPatterns intent ip' }
  let st1 : DiscoveryState :=
    { st with tools := updAssoc st.tools tn stats', historyUpdated := now }
  if success then learnToolPattern st1 tn ctx now else st1

/-! ## Fixtures used by concrete counterexamples and witnesses -/

/-- An agent record with neither an explicit `load` nor a `performance`
block. -/
def bareMeta : AgentMeta :=
  { capabilities := [], status := "inactive", load := none, performance := none }

/-- A context for tool invocations. -/
def ctx0 : ToolCtx := { intent := "greet", confidence := 0, entities := [] }

/-- A tool whose implementation succeeds without looking at its (required)
parameter. -/
def c3Tool : Tool :=
  ⟨{ name := "t3", requiredParams := ["p"], version := "1.0.0", cvRef := 0,
     canHandleImpl := fun _ => .ok 0,
     executeImpl := fun _ _ => .ok [("r", "done")] }, {}⟩

/-- A tool whose implementation always raises. -/
def c4Tool : Tool :=
  ⟨{ name := "t4", requiredParams := [], version := "1.0.0", cvRef := 0,
     canHandleImpl := fun _ => .ok 0,
     executeImpl := fun _ _ => .error ("boom") }, {}⟩

/-! ## C2 — load derivation for records missing both load and performance -/

/-- C2 counterexample: for a record lacking both an explicit `load` and the
performance fields, the load computation does NOT fail — it returns the
default-derived load `0.0` (`min(1.0, 0 * 100 / 10000)`), and
`get_load_metrics` over a catalog holding only such an agent succeeds,
contradicting the claim that an `InvalidMetrics` error is raised rather
than a default substituted. -/
theorem c2_counterexample :
    agentLoad bareMeta = .ok 0 ∧
    getLoadMetrics [("agent1", bareMeta)] = .ok [("agent1", 0)] := by
  constructor
  · show Except.ok (min 1 ((0 * 100 : ℚ) / 10000)) = _
    norm_num
  · show (match agentLoad bareMeta with
      | .ok l => match getLoadMetrics [] with
        | .ok ms => Except.ok (("agent1", l) :: ms)
        | .error e => .error e
      | .error _ => .error (.invalidMetrics ("agent1"))) = _
    rw [show agentLoad bareMeta = .ok 0 from by
      show Except.ok (min 1 ((0 * 100 : ℚ) / 10000)) = _; norm_num]
    rfl

/-- An agent record with no explicit `load` and a plain-number
`performance` entry: it lacks the `request_count` / `response_time_ms`
fields, yet `.get` on the non-dict raises. -/
def directPerfMeta : AgentMeta :=
  { capabilities := [], status := "inactive", load := none,
    performance := some (.direct (.num (9/10))) }

/-- C2 amended: for a record lacking an explicit `load` field, the load
pass treats an absent `performance` entry as an empty dict and substitutes
the defaults (`request_count = 0`, `response_time_ms = 100`) for missing
fields — so a record whose `performance` is absent, or a dict without
those fields, derives load `0.0` with no error; and such a load-less
record fails (with `InvalidMetrics` at the `get_load_metrics` level)
exactly when its `performance` entry is present but not a dict (the `.get`
raises `AttributeError` — e.g. a plain number or `None`) or a present
`request_count` / `response_time_ms` value cannot be used as a number. -/
theorem c2_amended (meta : AgentMeta) (hl : meta.load = none) :
    ((meta.performance = none ∨
        ∃ sr, meta.performance = some (.dict sr none none)) →
      agentLoad meta = .ok 0) ∧
    ((∃ e, agentLoad meta = .error e) ↔
      ((∃ v, meta.performance = some (.direct v)) ∨
       meta.performance = some .null ∨
       (∃ sr rc rt, meta.performance = some (.dict sr rc rt) ∧
         (rc = some .bad ∨ rt = some .bad)))) := by
  rcases hperf : meta.performance with _ | pf
  · refine ⟨?_, ?_, ?_⟩
    · intro _
      simp only [agentLoad, hl, hperf]
      norm_num
    · rintro ⟨e, he⟩
      rw [show agentLoad meta = .ok (min 1 ((0 * 100 : ℚ) / 10000)) from by
        simp only [agentLoad, hl, hperf]] at he
      exact absurd he (by simp)
    · rintro (⟨v, hv⟩ | hv | ⟨sr, rc, rt, hv, _⟩) <;> simp at hv
  · cases pf with
    | dict sr rc rt =>
      refine ⟨?_, ?_⟩
      · rintro (h | ⟨sr2, h⟩)
        · exact absurd h (by simp)
        · simp only [Option.some.injEq, Perf.dict.injEq] at h
          obtain ⟨-, rfl, rfl⟩ := h
          simp only [agentLoad, hl, hperf, fieldOr]
          norm_num
      rcases rc with _ | vc
      · rcases rt with _ | vt
        · constructor
          · rintro ⟨e, he⟩
            rw [show agentLoad meta =
                .ok (min 1 ((0 : ℚ) * 100 / 10000)) from by
              simp only [agentLoad, hl, hperf, fieldOr]] at he
            exact absurd he (by simp)
          · rintro (⟨v, hv⟩ | hv | ⟨sr2, rc2, rt2, hv, hbad⟩)
            · exact absurd hv (by simp)
            · exact absurd hv (by simp)
            · simp only [Option.some.injEq, Perf.dict.injEq] at hv
              obtain ⟨-, h4, h5⟩ := hv
              rw [← h4, ← h5] at hbad
              exact absurd hbad (by simp)
        · cases vt with
          | num q =>
            constructor
            · rintro ⟨e, he⟩
              rw [show agentLoad meta =
                  .ok (min 1 ((0 : ℚ) * q / 10000)) from by
                simp only [agentLoad, hl, hperf, fieldOr]] at he
              exact absurd he (by simp)
            · rintro (⟨v, hv⟩ | hv | ⟨sr2, rc2, rt2, hv, hbad⟩)
              · exact absurd hv (by simp)
              · exact absurd hv (by simp)
              · simp only [Option.some.injEq, Perf.dict.injEq] at hv
                obtain ⟨-, h4, h5⟩ := hv
                rw [← h4, ← h5] at hbad
                exact absurd hbad (by simp)
          | bad =>
            constructor
            · intro _
              exact Or.inr (Or.inr ⟨sr, none, some .bad, rfl, Or.inr rfl⟩)
            · intro _
              refine ⟨"bad value", ?_⟩
              simp only [agentLoad, hl, hperf, fieldOr]
      · cases vc with
        | num q =>
          rcases rt with _ | vt
          · constructor
            · rintro ⟨e, he⟩
              rw [show agentLoad meta =
                  .ok (min 1 (q * 100 / 10000)) from by
                simp only [agentLoad, hl, hperf, fieldOr]] at he
              exact absurd he (by simp)
            · rintro (⟨v, hv⟩ | hv | ⟨sr2, rc2, rt2, hv, hbad⟩)
              · exact absurd hv (by simp)
              · exact absurd hv (by simp)
              · simp only [Option.some.injEq, Perf.dict.injEq] at hv
                obtain ⟨-, h4, h5⟩ := hv
                rw [← h4, ← h5] at hbad
                exact absurd hbad (by simp)
          · cases vt with
            | num q2 =>
              constructor
              · rintro ⟨e, he⟩
                rw [show agentLoad meta =
                    .ok (min 1 (q * q2 / 10000)) from by
                  simp only [agentLoad, hl, hperf, fieldOr]] at he
                exact absurd he (by simp)
              · rintro (⟨v, hv⟩ | hv | ⟨sr2, rc2, rt2, hv, hbad⟩)
                · exact absurd hv (by simp)
                · exact absurd hv (by simp)
                · simp only [Option.some.injEq, Perf.dict.injEq] at hv
                  obtain ⟨-, h4, h5⟩ := hv
                  rw [← h4, ← h5] at hbad
                  exact absurd hbad (by simp)
            | bad =>
              constructor
              · intro _
                exact Or.inr (Or.inr ⟨sr, some (.num q), some .bad, rfl,
                  Or.inr rfl⟩)
              · intro _
                refine ⟨"bad value", ?_⟩
                simp only [agentLoad, hl, hperf, fieldOr]
        | bad =>
          constructor
          · intro _
            exact Or.inr (Or.inr ⟨sr, some .bad, rt, rfl, Or.inl rfl⟩)
          · intro _
            refine ⟨"bad value", ?_⟩
            simp only [agentLoad, hl, hperf, fieldOr]
    | direct v =>
      refine ⟨?_, ?_, ?_⟩
      · rintro (h | ⟨sr2, h⟩) <;> exact absurd h (by simp)
      · intro _
        exact Or.inl ⟨v, rfl⟩
      · intro _
        refine ⟨"AttributeError", ?_⟩
        simp only [agentLoad, hl, hperf]
    | null =>
      refine ⟨?_, ?_, ?_⟩
      · rintro (h | ⟨sr2, h⟩) <;> exact absurd h (by simp)
      · intro _
        exact Or.inr (Or.inl rfl)
      · intro _
        refine ⟨"AttributeError", ?_⟩
        simp only [agentLoad, hl, hperf]

/-- C2 amended, witness: the bare record derives the default load `0.0`,
while the record whose `performance` is the plain number `0.9` makes the
load pass raise. -/
theorem c2_amended_witness :
    agentLoad bareMeta = .ok 0 ∧
    ∃ e, agentLoad directPerfMeta = .error e :=
  ⟨(c2_amended bareMeta rfl).1 (Or.inl rfl),
    (c2_amended directPerfMeta rfl).2.mpr
      (Or.inl ⟨.num (9/10), rfl⟩)⟩

/-! ## C3 — execute does not validate required params -/

/-- C3 counterexample: `Tool.execute` runs the tool-specific logic without
checking `required_params`.  `c3Tool` requires parameter `"p"`, the params
dict is empty (`validate_params` returns `False` on it), and yet the call
succeeds with the data produced by the tool-specific `_execute_impl` —
proof that the tool logic ran with a missing required parameter. -/
theorem c3_counterexample :
    (c3Tool.execute [] ctx0 1 0).2 = { success := true, data := [("r", "done")] } ∧
    c3Tool.validateParams (some []) = false :=
  ⟨rfl, rfl⟩

/-- C3 amended: `execute` performs no parameter validation — even when
`validate_params` rejects the params dict, `_execute_impl` is invoked and
its outcome (converted to a `ToolResult`) is returned unchanged.
Validation happens only if a tool's own implementation calls
`validate_params` itself. -/
theorem c3_amended (t : Tool) (params : Params) (ctx : ToolCtx) (d now : ℚ)
    (hv : t.validateParams (some params) = false) :
    (t.execute params ctx d now).2 =
      (match t.cls.executeImpl params ctx with
       | .ok data => { success := true, data := data }
       | .error e => { success := false, data := [], errorMessage := some e }) := by
  unfold Tool.execute
  cases t.cls.executeImpl params ctx <;> rfl

/-- C3 amended, witness at `c3Tool` with empty params. -/
theorem c3_amended_witness :
    (c3Tool.execute [] ctx0 1 0).2 =
      (match c3Tool.cls.executeImpl [] ctx0 with
       | .ok data => { success := true, data := data }
       | .error e => { success := false, data := [], errorMessage := some e }) :=
  c3_amended c3Tool [] ctx0 1 0 rfl

/-! ## C4 — metric updates on every execute call -/

/-- C4 counterexample: on a failing call the running average
`execution_time` is NOT updated.  For the fresh failing tool with a call of
duration `1`, the claimed online average would be
`(0 * (1 - 1) + 1) / 1 = 1`, but the stored value stays `0`. -/
theorem c4_counterexample :
    (c4Tool.execute [] ctx0 1 0).1.metrics.total_executions = 1 ∧
    (c4Tool.execute [] ctx0 1 0).1.metrics.execution_time = 0 ∧
    (0 : ℚ) ≠ (0 * ((1 : ℚ) - 1) + 1) / 1 := by
  refine ⟨rfl, rfl, by norm_num⟩

/-- C4 amended: after every call `total_executions` has increased by `1`,
`failed_executions` by `1` exactly when the call failed, and
`success_rate` equals `(total - failed) / total`; but the online average
`execution_time` (and `last_execution`) is updated only on successful
calls — on a failure it is left unchanged. -/
theorem c4_amended (t : Tool) (p : Params) (ctx : ToolCtx) (d now : ℚ) :
    ((t.execute p ctx d now).1.metrics.total_executions =
        t.metrics.total_executions + 1) ∧
    ((t.execute p ctx d now).1.metrics.success_rate =
      (((t.execute p ctx d now).1.metrics.total_executions : ℚ) -
          ((t.execute p ctx d now).1.metrics.failed_executions : ℚ)) /
        ((t.execute p ctx d now).1.metrics.total_executions : ℚ)) ∧
    ((t.execute p ctx d now).2.success = true →
      (t.execute p ctx d now).1.metrics.failed_executions =
          t.metrics.failed_executions ∧
      (t.execute p ctx d now).1.metrics.execution_time =
        (t.metrics.execution_time * ((t.metrics.total_executions : ℚ) + 1 - 1) + d) /
          ((t.metrics.total_executions : ℚ) + 1)) ∧
    ((t.execute p ctx d now).2.success = false →
      (t.execute p ctx d now).1.metrics.failed_executions =
          t.metrics.failed_executions + 1 ∧
      (t.execute p ctx d now).1.metrics.execution_time =
        t.metrics.execution_time) := by
  cases h : t.cls.executeImpl p ctx with
  | ok data =>
    refine ⟨?_, ?_, ?_, ?_⟩ <;> simp [Tool.execute, h] <;> push_cast <;> ring_nf
  | error e =>
    have hmax : max (t.metrics.total_executions + 1) 1 =
        t.metrics.total_executions + 1 := by omega
    refine ⟨?_, ?_, ?_, ?_⟩ <;> simp [Tool.execute, h, hmax] <;> push_cast <;> ring_nf

/-- C4 amended, witness at the failing tool: the counters move, the
average does not. -/
theorem c4_amended_witness :
    (c4Tool.execute [] ctx0 1 0).1.metrics.failed_executions = 0 + 1 ∧
    (c4Tool.execute [] ctx0 1 0).1.metrics.execution_time = 0 :=
  (c4_amended c4Tool [] ctx0 1 0).2.2.2 rfl

/-! ## Dict lemmas shared by several claims -/

theorem lookupAssoc_nil {α : Type} (k : String) :
    lookupAssoc ([] : List (String × α)) k = none := rfl

theorem lookupAssoc_updAssoc_self {α : Type} (l : List (String × α))
    (k : String) (v : α) : lookupAssoc (updAssoc l k v) k = some v := by
  induction l with
  | nil => simp [updAssoc, lookupAssoc]
  | cons p rest ih =>
    by_cases h : p.1 = k
    · simp [updAssoc, lookupAssoc, h]
    · simpa [updAssoc, lookupAssoc, h] using ih

theorem lookupAssoc_updAssoc_ne {α : Type} (l : List (String × α))
    (k k' : String) (v : α) (h : k ≠ k') :
    lookupAssoc (updAssoc l k v) k' = lookupAssoc l k' := by
  induction l with
  | nil => simp [updAssoc, lookupAssoc, h]
  | cons p rest ih =>
    by_cases hp : p.1 = k
    · simp [updAssoc, lookupAssoc, hp, h]
    · by_cases hp' : p.1 = k'
      · simp [updAssoc, lookupAssoc, hp, hp', Ne.symm h]
      · simpa [updAssoc, lookupAssoc, hp, hp'] using ih

/-! ## C6 — version archiving on re-registration -/

/-- A registerable tool class named `toolA`, version `1.0.0`, with its
`compatible_versions` class attribute denoting list cell `0`. -/
def c6ClassA : ToolClass :=
  { name := "toolA", requiredParams := [], version := "1.0.0", cvRef := 0,
    canHandleImpl := fun _ => .ok 0, executeImpl := fun _ _ => .ok [] }

/-- A second, independent class with the same name but version `2.0.0`,
declaring its own (empty) `compatible_versions` list in cell `1`. -/
def c6ClassB : ToolClass := { c6ClassA with version := "2.0.0", cvRef := 1 }

/-- Registering `toolA` v1 and then the independent v2 class. -/
def c6Run : Except String ToolRegistryState :=
  (register (ToolRegistryState.init [[], []]) c6ClassA).bind
    (fun s => register s c6ClassB)

/-- The resulting registry state. -/
def c6State : ToolRegistryState :=
  match c6Run with
  | .ok st => st
  | .error _ => ToolRegistryState.init []

/-- C6 counterexample: after registering `toolA` v1.0.0 and then a v2.0.0
class of the same name that declares its own `compatible_versions` list,
the registry's current tool has version 2.0.0 but its
`compatible_versions` is still empty — `register` appended `"1.0.0"` to
the replaced v1 instance's list (cell 0) and then discarded that instance,
so the old version string is not retrievable from the current record (only
`_version_history` kept it). -/
theorem c6_counterexample :
    c6Run.isOk = true ∧
    (lookupAssoc c6State.tools ("toolA")).map (fun t => t.cls.version) =
      some ("2.0.0") ∧
    (lookupAssoc c6State.tools ("toolA")).map
      (fun t => compatibleVersions c6State t) = some [] ∧
    lookupAssoc c6State.versionHistory ("toolA") = some ["1.0.0", "2.0.0"] :=
  ⟨rfl, rfl, rfl, rfl⟩

/-- C6 amended: re-registering a same-named class with a different version
leaves the registry's tool at the new version, and the old version string
is archived — always into `_version_history`, and into the current tool's
`compatible_versions` exactly when the new class shares the old instance's
`compatible_versions` list object (as a subclass that does not redeclare
the attribute does); a class declaring its own list does not inherit the
archived entry. -/
theorem c6_amended (heap0 : List (List String)) (c1 c2 : ToolClass)
    (hname : c2.name = c1.name) (hn1 : c1.name ≠ "")
    (hver : c1.version ≠ c2.version) (hshare : c2.cvRef = c1.cvRef)
    (hlt : c1.cvRef < heap0.length) :
    ∃ st, (register (ToolRegistryState.init heap0) c1).bind
        (fun s => register s c2) = .ok st ∧
      ∃ t, lookupAssoc st.tools c1.name = some t ∧
        t.cls.version = c2.version ∧
        c1.version ∈ compatibleVersions st t ∧
        ∃ h, lookupAssoc st.versionHistory c1.name = some h ∧
          c1.version ∈ h := by
  have hn2 : c2.name ≠ "" := hname ▸ hn1
  have step1 : register (ToolRegistryState.init heap0) c1 =
      .ok { heap := heap0,
            tools := [(c1.name, ⟨c1, {}⟩)],
            versionHistory := [(c1.name, [c1.version])] } := by
    simp [register, instantiate, hn1, ToolRegistryState.init, lookupAssoc,
      updAssoc]
  have step2 : register
      { heap := heap0,
        tools := [(c1.name, ⟨c1, {}⟩)],
        versionHistory := [(c1.name, [c1.version])] } c2 =
      .ok { heap := heap0.set c1.cvRef (heap0.getD c1.cvRef [] ++ [c1.version]),
            tools := [(c1.name, (⟨c2, {}⟩ : Tool))],
            versionHistory := [(c1.name, [c1.version, c2.version])] } := by
    simp [register, instantiate, hn1, hn2, lookupAssoc, updAssoc, hname,
      hver, Ne.symm hver]
  have step12 : (register (ToolRegistryState.init heap0) c1).bind
      (fun s => register s c2) =
      .ok { heap := heap0.set c1.cvRef (heap0.getD c1.cvRef [] ++ [c1.version]),
            tools := [(c1.name, (⟨c2, {}⟩ : Tool))],
            versionHistory := [(c1.name, [c1.version, c2.version])] } := by
    rw [step1]
    exact step2
  refine ⟨_, step12, ⟨c2, {}⟩, ?_, rfl, ?_, [c1.version, c2.version], ?_, ?_⟩
  · simp [lookupAssoc]
  · show c1.version ∈ (heap0.set c1.cvRef _).getD c2.cvRef []
    rw [hshare, List.getD_eq_getElem?_getD, List.getElem?_set_self (by simpa using hlt)]
    simp
  · simp [lookupAssoc]
  · simp

/-- C6 amended, witness: the v2 class shares cell `0` with the v1 class
(the subclass situation); the archived `1.0.0` is then visible. -/
theorem c6_amended_witness :
    ∃ st, (register (ToolRegistryState.init [[]]) c6ClassA).bind
        (fun s => register s ({ c6ClassA with version := "2.0.0" })) = .ok st ∧
      ∃ t, lookupAssoc st.tools c6ClassA.name = some t ∧
        t.cls.version = ({ c6ClassA with version := "2.0.0" } : ToolClass).version ∧
        c6ClassA.version ∈ compatibleVersions st t ∧
        ∃ h, lookupAssoc st.versionHistory c6ClassA.name = some h ∧
          c6ClassA.version ∈ h :=
  c6_amended [[]] c6ClassA { c6ClassA with version := "2.0.0" } rfl
    (by decide) (by decide) rfl (by decide)

/-! ## C9 — idempotent pattern learning -/

/-- Set-equality of key lists is characterised by mutual membership. -/
theorem eqAsSet_iff (a b : List String) :
    eqAsSet a b = true ↔ ∀ x, x ∈ a ↔ x ∈ b := by
  simp only [eqAsSet, Bool.and_eq_true, List.all_eq_true, List.elem_iff]
  constructor
  · rintro ⟨hab, hba⟩ x
    exact ⟨fun hx => hab x hx, fun hx => hba x hx⟩
  · intro h
    exact ⟨fun x hx => (h x).1 hx, fun x hx => (h x).2 hx⟩

theorem eqAsSet_refl (a : List String) : eqAsSet a a = true :=
  (eqAsSet_iff a a).2 (fun _ => Iff.rfl)

theorem eqAsSet_of_eqAsSet_right (a b c : List String)
    (hac : eqAsSet a c = true) (hbc : eqAsSet b c = true) :
    eqAsSet a b = true :=
  (eqAsSet_iff a b).2 (fun x =>
    ((eqAsSet_iff a c).1 hac x).trans ((eqAsSet_iff b c).1 hbc x).symm)

/-- Number of stored patterns matching a `(tool, intent, entity-key-set)`
combination. -/
def countMatching (ps : List Pattern) (tn i : String) (ek : List String) : ℕ :=
  (ps.filter (fun p => patternMatches p tn i ek)).length

/-- The patterns side of `record_tool_execution` leaves the performance
counters aside: on failure it is untouched. -/
theorem recordToolExecution_patterns_of_failure (st : DiscoveryState)
    (tn : String) (ctx : DCtx) (et now : ℚ) :
    (recordToolExecution st tn ctx false et now).patterns = st.patterns := rfl

/-- The pattern store after a successful `record_tool_execution` call:
unchanged when a matching pattern exists, else the new pattern appended. -/
theorem recordTrue_patterns (st : DiscoveryState) (tn : String) (ctx : DCtx)
    (et now : ℚ) :
    (recordToolExecution st tn ctx true et now).patterns =
      (if (st.patterns.any fun p => patternMatches p tn
            (ctx.intent.getD ("unknown")) (List.map Prod.fst ctx.entities)) = true
       then st.patterns
       else st.patterns ++ [newPatternOf tn ctx now]) := by
  show (learnToolPattern _ tn ctx now).patterns = _
  rw [learnToolPattern]
  simp only [newPatternOf]
  split <;> rfl

/-- On success, the pattern store either stays unchanged (a matching
pattern already existed) or gets exactly the new pattern appended. -/
theorem recordToolExecution_patterns_of_success (st : DiscoveryState)
    (tn : String) (ctx : DCtx) (et now : ℚ) :
    (recordToolExecution st tn ctx true et now).patterns = st.patterns ∨
    ∃ p : Pattern, p.toolName = tn ∧ p.intent = ctx.intent.getD ("unknown") ∧
      p.entitiesPresent = ctx.entities.map Prod.fst ∧
      (recordToolExecution st tn ctx true et now).patterns =
        st.patterns ++ [p] ∧
      (∀ q ∈ st.patterns,
        patternMatches q tn (ctx.intent.getD ("unknown"))
          (ctx.entities.map Prod.fst) = false) := by
  rw [recordTrue_patterns]
  by_cases hany : (st.patterns.any fun p => patternMatches p tn
      (ctx.intent.getD ("unknown")) (List.map Prod.fst ctx.entities)) = true
  · left
    rw [if_pos hany]
  · right
    refine ⟨newPatternOf tn ctx now, rfl, rfl, rfl, ?_, ?_⟩
    · rw [if_neg hany]
    · intro q hq
      by_contra hqm
      exact hany (List.any_eq_true.2 ⟨q, hq, by simpa using hqm⟩)

/-- C9: a `ToolPattern` is learned only on success; old patterns are never
modified (the store only ever grows by whole new entries); the
at-most-one-pattern-per-combination invariant is preserved by every call;
and a repeated successful call with the same tool and context adds
nothing — duplicate learning is silently skipped. -/
theorem c9_pattern_learning :
    (∀ (st : DiscoveryState) (tn : String) (ctx : DCtx) (et now : ℚ),
      (recordToolExecution st tn ctx false et now).patterns = st.patterns) ∧
    (∀ (st : DiscoveryState) (tn : String) (ctx : DCtx) (success : Bool)
        (et now : ℚ),
      (recordToolExecution st tn ctx success et now).patterns = st.patterns ∨
      ∃ p, (recordToolExecution st tn ctx success et now).patterns =
        st.patterns ++ [p]) ∧
    (∀ (st : DiscoveryState) (tn : String) (ctx : DCtx) (success : Bool)
        (et now : ℚ) (tn' i' : String) (ek' : List String),
      countMatching st.patterns tn' i' ek' ≤ 1 →
      countMatching (recordToolExecution st tn ctx success et now).patterns
        tn' i' ek' ≤ 1) ∧
    (∀ (st : DiscoveryState) (tn : String) (ctx : DCtx) (et now et2 now2 : ℚ),
      (recordToolExecution (recordToolExecution st tn ctx true et now)
          tn ctx true et2 now2).patterns =
        (recordToolExecution st tn ctx true et now).patterns) := by
  have hgrow := recordToolExecution_patterns_of_success
  refine ⟨fun st tn ctx et now => rfl, ?_, ?_, ?_⟩
  · intro st tn ctx success et now
    cases success with
    | false => exact Or.inl rfl
    | true =>
      rcases hgrow st tn ctx et now with h | ⟨p, _, _, _, h, _⟩
      · exact Or.inl h
      · exact Or.inr ⟨p, h⟩
  · intro st tn ctx success et now tn' i' ek' hle
    cases success with
    | false => exact hle
    | true =>
      rcases hgrow st tn ctx et now with h | ⟨p, hptn, hpint, hpek, h, hnone⟩
      · rw [h]; exact hle
      · rw [h]
        unfold countMatching at hle ⊢
        rw [List.filter_append]
        by_cases hm : patternMatches p tn' i' ek' = true
        · have hzero : st.patterns.filter
              (fun q => patternMatches q tn' i' ek') = [] := by
            rw [List.filter_eq_nil_iff]
            intro q hq
            simp only [Bool.not_eq_true]
            by_contra hq'
            simp only [Bool.not_eq_false] at hq'
            have hpm := hm
            simp only [patternMatches, Bool.and_eq_true, beq_iff_eq] at hpm hq'
            have hqmatch : patternMatches q tn (ctx.intent.getD ("unknown"))
                (ctx.entities.map Prod.fst) = true := by
              simp only [patternMatches, Bool.and_eq_true, beq_iff_eq]
              refine ⟨⟨hq'.1.1.trans (hpm.1.1.symm.trans hptn), ?_⟩, ?_⟩
              · exact hq'.1.2.trans (hpm.1.2.symm.trans hpint)
              · exact hpek ▸ eqAsSet_of_eqAsSet_right _ _ _ hq'.2 hpm.2
            rw [hnone q hq] at hqmatch
            exact Bool.false_ne_true hqmatch
          rw [hzero]
          simp [hm]
        · simp only [Bool.not_eq_true] at hm
          simpa [hm] using hle
  · intro st tn ctx et now et2 now2
    rw [recordTrue_patterns (recordToolExecution st tn ctx true et now)
      tn ctx et2 now2]
    have hany2 : ((recordToolExecution st tn ctx true et now).patterns.any
        fun p => patternMatches p tn (ctx.intent.getD ("unknown"))
          (List.map Prod.fst ctx.entities)) = true := by
      rw [recordTrue_patterns st tn ctx et now]
      by_cases hany0 : (st.patterns.any fun p => patternMatches p tn
          (ctx.intent.getD ("unknown")) (List.map Prod.fst ctx.entities)) = true
      · rw [if_pos hany0]
        exact hany0
      · rw [if_neg hany0, List.any_append]
        have hself : patternMatches (newPatternOf tn ctx now) tn
            (ctx.intent.getD ("unknown")) (List.map Prod.fst ctx.entities) = true := by
          simp [patternMatches, newPatternOf, eqAsSet_refl]
        simp [hself]
    rw [if_pos hany2]
/-- C9 witness: from an empty ledger, one successful recording leaves one
matching pattern, and an identical second call changes nothing. -/
theorem c9_pattern_learning_witness :
    countMatching (recordToolExecution ⟨[], [], 0, 0⟩ "echo"
      ⟨some ("greet"), [("name", "w")], []⟩ true 1 2).patterns
      "echo" "greet" ["name"] ≤ 1 ∧
    (recordToolExecution (recordToolExecution ⟨[], [], 0, 0⟩ "echo"
        ⟨some ("greet"), [("name", "w")], []⟩ true 1 2) "echo"
        ⟨some ("greet"), [("name", "w")], []⟩ true 3 4).patterns =
      (recordToolExecution ⟨[], [], 0, 0⟩ "echo"
        ⟨some ("greet"), [("name", "w")], []⟩ true 1 2).patterns :=
  ⟨c9_pattern_learning.2.2.1 ⟨[], [], 0, 0⟩ "echo"
      ⟨some ("greet"), [("name", "w")], []⟩ true 1 2 "echo" "greet" ["name"]
      (by simp [countMatching]),
    c9_pattern_learning.2.2.2 ⟨[], [], 0, 0⟩ "echo"
      ⟨some ("greet"), [("name", "w")], []⟩ 1 2 3 4⟩

/-! ## C7 — recursive deep merge of partial context updates -/

theorem JObj.lookup_setKey_self : ∀ (o : JObj) (k : String) (v : JVal),
    (o.setKey k v).lookup k = some v
  | .nil, k, v => by simp [JObj.setKey, JObj.lookup]
  | .cons k2 v2 rest, k, v => by
    by_cases h : k2 = k
    · simp [JObj.setKey, JObj.lookup, h]
    · simp [JObj.setKey, JObj.lookup, h,
        JObj.lookup_setKey_self rest k v]

theorem JObj.lookup_setKey_ne : ∀ (o : JObj) (k k2 : String) (v : JVal),
    k ≠ k2 → (o.setKey k v).lookup k2 = o.lookup k2
  | .nil, k, k2, v, h => by simp [JObj.setKey, JObj.lookup, h]
  | .cons k3 v3 rest, k, k2, v, h => by
    by_cases h2 : k3 = k
    · simp [JObj.setKey, JObj.lookup, h2, h]
    · by_cases h3 : k3 = k2
      · simp [JObj.setKey, JObj.lookup, h2, h3, Ne.symm h]
      · simp [JObj.setKey, JObj.lookup, h2, h3,
          JObj.lookup_setKey_ne rest k k2 v h]

theorem JObj.lookup_eq_none_of_not_mem_keys :
    ∀ (o : JObj) (key : String), key ∉ o.keys → o.lookup key = none
  | .nil, key, _ => rfl
  | .cons k v rest, key, h => by
    simp only [JObj.keys, List.mem_cons, not_or] at h
    simp [JObj.lookup, Ne.symm h.1,
      JObj.lookup_eq_none_of_not_mem_keys rest key h.2]

/-- Lookup through `recursive_update`: an updated key wins, two nested
dicts merge recursively, absent keys keep the original value. -/
theorem lookup_recursiveUpdate :
    ∀ (u orig : JObj) (key : String), u.keys.Nodup →
    (recursiveUpdate orig u).lookup key =
      (match u.lookup key, orig.lookup key with
       | some (.obj uu), some (.obj oo) => some (.obj (recursiveUpdate oo uu))
       | some v, _ => some v
       | none, _ => orig.lookup key)
  | .nil, orig, key, _ => by simp [recursiveUpdate, JObj.lookup]
  | .cons k v rest, orig, key, h => by
    have hk : k ∉ rest.keys := by
      simpa [JObj.keys] using (List.nodup_cons.1 (by simpa [JObj.keys] using h)).1
    have hrest : rest.keys.Nodup :=
      (List.nodup_cons.1 (by simpa [JObj.keys] using h)).2
    have ih := lookup_recursiveUpdate rest (recursiveUpdateKey orig k v) key hrest
    show (recursiveUpdate (recursiveUpdateKey orig k v) rest).lookup key = _
    by_cases hkey : k = key
    · subst hkey
      have hrnone : rest.lookup k = none :=
        JObj.lookup_eq_none_of_not_mem_keys rest k hk
      rw [ih, hrnone]
      have hu : (JObj.cons k v rest).lookup k = some v := by
        simp [JObj.lookup]
      rw [hu]
      cases v with
      | obj u' =>
        show (recursiveUpdateKey orig k (.obj u')).lookup k = _
        rw [recursiveUpdateKey]
        cases horig : orig.lookup k with
        | none => simp [horig, JObj.lookup_setKey_self]
        | some w =>
          cases w with
          | obj oo => simp [horig, JObj.lookup_setKey_self]
          | num q => simp [horig, JObj.lookup_setKey_self]
          | str s => simp [horig, JObj.lookup_setKey_self]
      | num q => simp [recursiveUpdateKey, JObj.lookup_setKey_self]
      | str s => simp [recursiveUpdateKey, JObj.lookup_setKey_self]
    · have hu : (JObj.cons k v rest).lookup key = rest.lookup key := by
        simp [JObj.lookup, hkey]
      have hperm : (recursiveUpdateKey orig k v).lookup key = orig.lookup key := by
        cases v with
        | obj u' =>
          rw [recursiveUpdateKey]
          cases horig : orig.lookup k with
          | none => exact JObj.lookup_setKey_ne _ _ _ _ hkey
          | some w =>
            cases w with
            | obj oo => exact JObj.lookup_setKey_ne _ _ _ _ hkey
            | num q => exact JObj.lookup_setKey_ne _ _ _ _ hkey
            | str s => exact JObj.lookup_setKey_ne _ _ _ _ hkey
        | num q => exact JObj.lookup_setKey_ne _ _ _ _ hkey
        | str s => exact JObj.lookup_setKey_ne _ _ _ _ hkey
      rw [ih, hu, hperm]

/-- C7: `update_partial_context` deep-merges.  First, the general law of
`recursive_update` lookups: for each key of the update, two nested dicts
merge recursively and any other new value replaces the old one, while keys
absent from the update are untouched.  Second, the claim's instance: after
updating a fresh session with `{"a": {"x": 1}}` and then `{"a": {"y": 2}}`,
key `"a"` holds `{"x": 1, "y": 2}` — the sibling `"x"` is not clobbered. -/
theorem c7_deep_merge :
    (∀ (u orig : JObj) (key : String), u.keys.Nodup →
      (recursiveUpdate orig u).lookup key =
        (match u.lookup key, orig.lookup key with
         | some (.obj uu), some (.obj oo) => some (.obj (recursiveUpdate oo uu))
         | some v, _ => some v
         | none, _ => orig.lookup key)) ∧
    (∀ (store : Store) (sid : String) (t1 t2 : ℚ),
      lookupStore store sid = none →
      (getContext (updatePartialContext (updatePartialContext store sid
          (JObj.cons ("a") (.obj (JObj.cons ("x") (.num 1) .nil)) .nil) t1) sid
          (JObj.cons ("a") (.obj (JObj.cons ("y") (.num 2) .nil)) .nil) t2)
        sid).lookup ("a") =
      some (.obj (JObj.cons ("x") (.num 1) (JObj.cons ("y") (.num 2) .nil)))) := by
  refine ⟨lookup_recursiveUpdate, ?_⟩
  intro store sid t1 t2 hnone
  rw [updatePartialContext, updatePartialContext]
  rw [show lookupStore store sid = none from hnone]
  rw [show lookupStore (updAssoc store sid
      ((recursiveUpdate (JObj.cons ("_timestamp") (.num t1) .nil)
        (JObj.cons ("a") (.obj (JObj.cons ("x") (.num 1) .nil)) .nil)).setKey
          "_timestamp" (.num t1))) sid = some _ from
    lookupAssoc_updAssoc_self store sid _]
  rw [getContext, lookupStore, lookupAssoc_updAssoc_self]
  simp [recursiveUpdate, recursiveUpdateKey, JObj.lookup, JObj.setKey]

/-- C7 witness at the empty store and a fresh session id. -/
theorem c7_deep_merge_witness :
    (getContext (updatePartialContext (updatePartialContext [] "s"
        (JObj.cons ("a") (.obj (JObj.cons ("x") (.num 1) .nil)) .nil) 1) "s"
        (JObj.cons ("a") (.obj (JObj.cons ("y") (.num 2) .nil)) .nil) 2)
      "s").lookup ("a") =
    some (.obj (JObj.cons ("x") (.num 1) (JObj.cons ("y") (.num 2) .nil))) :=
  c7_deep_merge.2 [] "s" 1 2 rfl

/-! ## C8 — garbage-collection sweep -/

theorem lookupAssoc_eq_none_iff {α : Type} (l : List (String × α))
    (k : String) : lookupAssoc l k = none ↔ k ∉ l.map Prod.fst := by
  induction l with
  | nil => simp [lookupAssoc]
  | cons p rest ih =>
    by_cases h : p.1 = k
    · simp [lookupAssoc, h]
    · simpa [lookupAssoc, h, Ne.symm h] using ih

theorem mem_of_lookupAssoc_eq_some {α : Type} (l : List (String × α))
    (k : String) (v : α) (h : lookupAssoc l k = some v) : (k, v) ∈ l := by
  induction l with
  | nil => simp [lookupAssoc] at h
  | cons p rest ih =>
    by_cases hp : p.1 = k
    · simp only [lookupAssoc, List.find?_cons, hp, beq_self_eq_true,
        Option.map_some', Option.some.injEq] at h
      rw [← hp, ← h]
      exact List.mem_cons_self _ _
    · simp only [lookupAssoc, List.find?_cons] at h
      rw [show (p.1 == k) = false from beq_eq_false_iff_ne.2 hp] at h
      exact List.mem_cons_of_mem p (ih h)

theorem lookupAssoc_eq_some_of_mem_nodup {α : Type} (l : List (String × α))
    (k : String) (v : α) (hm : (k, v) ∈ l) (hnd : (l.map Prod.fst).Nodup) :
    lookupAssoc l k = some v := by
  induction l with
  | nil => simp at hm
  | cons p rest ih =>
    simp only [List.map_cons, List.nodup_cons] at hnd
    rcases List.mem_cons.1 hm with h | h
    · rw [← h]
      simp [lookupAssoc]
    · have hne : p.1 ≠ k := by
        intro hk
        exact hnd.1 (hk ▸ (List.mem_map.2 ⟨(k, v), h, rfl⟩))
      simp only [lookupAssoc, List.find?_cons,
        show (p.1 == k) = false from beq_eq_false_iff_ne.2 hne]
      exact ih h hnd.2

theorem lookupAssoc_eraseStore_self (s : Store) (sid : String)
    (hnd : (s.map Prod.fst).Nodup) :
    lookupAssoc (eraseStore s sid) sid = none := by
  induction s with
  | nil => rfl
  | cons p rest ih =>
    simp only [List.map_cons, List.nodup_cons] at hnd
    by_cases hp : p.1 = sid
    · rw [show eraseStore (p :: rest) sid = rest from by
        simp [eraseStore, List.eraseP_cons, hp]]
      exact (lookupAssoc_eq_none_iff rest sid).2 (hp ▸ hnd.1)
    · rw [show eraseStore (p :: rest) sid = p :: eraseStore rest sid from by
        simp [eraseStore, List.eraseP_cons, beq_eq_false_iff_ne.2 hp]]
      simp only [lookupAssoc, List.find?_cons, beq_eq_false_iff_ne.2 hp]
      exact ih hnd.2

theorem lookupAssoc_eraseStore_ne (s : Store) (sid sid2 : String)
    (h : sid2 ≠ sid) :
    lookupAssoc (eraseStore s sid) sid2 = lookupAssoc s sid2 := by
  induction s with
  | nil => rfl
  | cons p rest ih =>
    by_cases hp : p.1 = sid
    · rw [show eraseStore (p :: rest) sid = rest from by
        simp [eraseStore, List.eraseP_cons, hp]]
      simp only [lookupAssoc, List.find?_cons,
        show (p.1 == sid2) = false from beq_eq_false_iff_ne.2 (by
          rw [hp]; exact Ne.symm h)]
    · rw [show eraseStore (p :: rest) sid = p :: eraseStore rest sid from by
        simp [eraseStore, List.eraseP_cons, beq_eq_false_iff_ne.2 hp]]
      by_cases hp2 : p.1 = sid2
      · simp [lookupAssoc, List.find?_cons, hp2]
      · simp only [lookupAssoc, List.find?_cons, beq_eq_false_iff_ne.2 hp2]
        exact ih

theorem eraseStore_keys_sublist (s : Store) (sid : String) :
    ((eraseStore s sid).map Prod.fst).Sublist (s.map Prod.fst) :=
  (List.eraseP_sublist s).map Prod.fst

theorem lookup_foldl_eraseStore (ids : List String) :
    ∀ (s : Store), (s.map Prod.fst).Nodup → ∀ sid : String,
    lookupAssoc (ids.foldl eraseStore s) sid =
      if sid ∈ ids then none else lookupAssoc s sid := by
  induction ids with
  | nil => intro s _ sid; simp
  | cons e rest ih =>
    intro s hnd sid
    have hnd' : ((eraseStore s e).map Prod.fst).Nodup :=
      hnd.sublist (eraseStore_keys_sublist s e)
    rw [List.foldl_cons, ih (eraseStore s e) hnd' sid]
    by_cases hr : sid ∈ rest
    · simp [hr]
    · by_cases he : sid = e
      · subst he
        simp [hr, lookupAssoc_eraseStore_self s sid hnd]
      · simp [hr, he, lookupAssoc_eraseStore_ne s e sid he]

theorem foldl_emit_eq_map (cfg : CMConfig) (hemit : cfg.eventEmission = true)
    (ids : List String) :
    ∀ init : List (String × String),
    ids.foldl (fun evs sid => evs ++ emitEvent cfg sid ("garbage_collected"))
      init = init ++ ids.map (fun sid => (sid, "garbage_collected")) := by
  induction ids with
  | nil => intro init; simp
  | cons e rest ih =>
    intro init
    rw [List.foldl_cons, ih, emitEvent, hemit]
    simp

theorem filter_beq_length_one (ids : List String) (sid : String)
    (hnd : ids.Nodup) (hm : sid ∈ ids) :
    (ids.filter (fun x => x == sid)).length = 1 := by
  induction ids with
  | nil => simp at hm
  | cons e rest ih =>
    rcases List.nodup_cons.1 hnd with ⟨hne, hndr⟩
    rcases List.mem_cons.1 hm with h | h
    · have hrest : rest.filter (fun x => x == sid) = [] := by
        rw [List.filter_eq_nil_iff]
        intro a ha
        simp only [beq_iff_eq]
        intro hae
        rw [hae, h] at ha
        exact hne ha
      rw [List.filter_cons, if_pos (by simp [h]), hrest]
      rfl
    · have hne2 : (e == sid) = false := beq_eq_false_iff_ne.2 (by
        intro he; exact hne (he ▸ h))
      rw [List.filter_cons, if_neg (by simp [hne2])]
      exact ih hndr h

/-- Membership of a session id in the sweep's expired list. -/
theorem mem_expired_iff (ttl now : ℚ) (s : Store) (sid : String) (ctx : JObj)
    (hnd : (s.map Prod.fst).Nodup) (hsess : lookupAssoc s sid = some ctx) :
    (sid ∈ (s.filter (fun p => sessionExpiredAt ttl now p.2)).map Prod.fst) ↔
      sessionExpiredAt ttl now ctx = true := by
  constructor
  · intro h
    rcases List.mem_map.1 h with ⟨p, hp, hfst⟩
    obtain ⟨a, b⟩ := p
    rcases List.mem_filter.1 hp with ⟨hmem, hpred⟩
    simp only at hfst
    subst hfst
    have hb : lookupAssoc s a = some b :=
      lookupAssoc_eq_some_of_mem_nodup s a b hmem hnd
    rw [hsess] at hb
    rw [show ctx = b from Option.some_injective _ hb]
    exact hpred
  · intro h
    exact List.mem_map.2 ⟨(sid, ctx),
      List.mem_filter.2 ⟨mem_of_lookupAssoc_eq_some s sid ctx hsess, h⟩, rfl⟩

/-- C8: in a sweep at time `now` with event emission enabled, a stored
session whose `_timestamp` is older than the TTL is deleted (reads of it
return the empty context) and exactly one `garbage_collected` event fires
for it, while a session within the TTL is left unchanged and gets no
event. -/
theorem c8_gc_sweep (cfg : CMConfig) (now : ℚ) (s : Store) (sid : String)
    (ctx : JObj) (t : ℚ)
    (hemit : cfg.eventEmission = true)
    (hnd : (s.map Prod.fst).Nodup)
    (hsess : lookupStore s sid = some ctx)
    (hts : ctx.lookup ("_timestamp") = some (.num t)) :
    (now - t > cfg.sessionExpiration →
      lookupStore (gcSweep cfg now s).1 sid = none ∧
      getContext (gcSweep cfg now s).1 sid = .nil ∧
      ((gcSweep cfg now s).2.filter (fun e => e.1 == sid)).length = 1) ∧
    (now - t ≤ cfg.sessionExpiration →
      lookupStore (gcSweep cfg now s).1 sid = some ctx ∧
      ((gcSweep cfg now s).2.filter (fun e => e.1 == sid)).length = 0) := by
  have hpred : sessionExpiredAt cfg.sessionExpiration now ctx =
      decide (now - t > cfg.sessionExpiration) := by
    rw [sessionExpiredAt, hts]
  have hexpired := mem_expired_iff cfg.sessionExpiration now s sid ctx hnd hsess
  have hexnd : ((s.filter
      (fun p => sessionExpiredAt cfg.sessionExpiration now p.2)).map
        Prod.fst).Nodup :=
    hnd.sublist ((List.filter_sublist s).map Prod.fst)
  have hstore := lookup_foldl_eraseStore
    ((s.filter (fun p => sessionExpiredAt cfg.sessionExpiration now p.2)).map
      Prod.fst) s hnd sid
  have hevents : (gcSweep cfg now s).2 =
      ((s.filter (fun p => sessionExpiredAt cfg.sessionExpiration now p.2)).map
        Prod.fst).map (fun i => (i, "garbage_collected")) := by
    rw [gcSweep]
    exact foldl_emit_eq_map cfg hemit _ []
  constructor
  · intro hexp
    have hmem : sid ∈ (s.filter
        (fun p => sessionExpiredAt cfg.sessionExpiration now p.2)).map
          Prod.fst :=
      hexpired.2 (by rw [hpred]; exact decide_eq_true hexp)
    have h1 : lookupStore (gcSweep cfg now s).1 sid = none := by
      rw [gcSweep]
      show lookupAssoc _ sid = none
      rw [hstore, if_pos hmem]
    refine ⟨h1, ?_, ?_⟩
    · rw [getContext, h1]
      rfl
    · rw [hevents]
      have : (((s.filter
          (fun p => sessionExpiredAt cfg.sessionExpiration now p.2)).map
            Prod.fst).map (fun i => (i, "garbage_collected"))).filter
          (fun e => e.1 == sid) =
          (((s.filter
            (fun p => sessionExpiredAt cfg.sessionExpiration now p.2)).map
              Prod.fst).filter (fun x => x == sid)).map
            (fun i => (i, "garbage_collected")) := by
        rw [List.filter_map]
        rfl
      rw [this, List.length_map]
      exact filter_beq_length_one _ sid hexnd hmem
  · intro hin
    have hnmem : sid ∉ (s.filter
        (fun p => sessionExpiredAt cfg.sessionExpiration now p.2)).map
          Prod.fst := by
      intro hmem
      have := hexpired.1 hmem
      rw [hpred] at this
      exact absurd (of_decide_eq_true this) (not_lt.2 hin)
    constructor
    · rw [gcSweep]
      show lookupAssoc _ sid = some ctx
      rw [hstore, if_neg hnmem]
      exact hsess
    · rw [hevents, List.length_eq_zero, List.filter_eq_nil_iff]
      intro e he
      rcases List.mem_map.1 he with ⟨i, hi, hie⟩
      simp only [← hie, beq_iff_eq]
      intro hisid
      exact hnmem (hisid ▸ hi)

/-- The two-session store used by the C8 witness. -/
def c8Store : Store :=
  [("old", JObj.cons ("_timestamp") (.num 1) .nil),
   ("new", JObj.cons ("_timestamp") (.num 95) .nil)]

/-- C8 witness: with TTL `10` at time `100`, the session stamped `1` is
swept (one gc event), the session stamped `95` is untouched. -/
theorem c8_gc_sweep_witness :
    (lookupStore (gcSweep ⟨true, 10⟩ 100 c8Store).1 "old" = none ∧
      getContext (gcSweep ⟨true, 10⟩ 100 c8Store).1 "old" = .nil ∧
      ((gcSweep ⟨true, 10⟩ 100 c8Store).2.filter
          (fun e => e.1 == "old")).length = 1) ∧
    (lookupStore (gcSweep ⟨true, 10⟩ 100 c8Store).1 "new" =
      some (JObj.cons ("_timestamp") (.num 95) .nil) ∧
      ((gcSweep ⟨true, 10⟩ 100 c8Store).2.filter
          (fun e => e.1 == "new")).length = 0) :=
  ⟨(c8_gc_sweep ⟨true, 10⟩ 100 c8Store ("old")
        (JObj.cons ("_timestamp") (.num 1) .nil) 1 rfl (by simp [c8Store])
        rfl rfl).1 (by norm_num),
    (c8_gc_sweep ⟨true, 10⟩ 100 c8Store ("new")
        (JObj.cons ("_timestamp") (.num 95) .nil) 95 rfl (by simp [c8Store])
        (by simp [lookupStore, lookupAssoc, c8Store]) rfl).2 (by norm_num)⟩

/-! ## C5 — confidence-based tool selection -/

/-- Invariant of the `select_tool` fold: the final accumulator is either
the starting one or a visited tool paired with its adjusted confidence,
which clears `min_confidence` and strictly beats the start; every visited
tool's adjusted confidence is dominated by the final one or falls below
`min_confidence`; and the best confidence never decreases. -/
theorem selectTool_fold_spec (ctx : ToolCtx) (minConf : ℚ) :
    ∀ (l : List Tool) (acc : Option Tool × ℚ),
      (l.foldl (selectStep ctx minConf) acc = acc ∨
        ∃ t raw, t ∈ l ∧ t.cls.canHandleImpl ctx = .ok raw ∧
          l.foldl (selectStep ctx minConf) acc =
            (some t, adjustedConfidence t raw) ∧
          minConf ≤ adjustedConfidence t raw ∧
          acc.2 < adjustedConfidence t raw) ∧
      (∀ u ∈ l, ∀ r, u.cls.canHandleImpl ctx = .ok r →
        adjustedConfidence u r ≤ (l.foldl (selectStep ctx minConf) acc).2 ∨
        adjustedConfidence u r < minConf) ∧
      acc.2 ≤ (l.foldl (selectStep ctx minConf) acc).2 := by
  intro l
  induction l with
  | nil => exact fun acc => ⟨Or.inl rfl, by simp, le_refl _⟩
  | cons x xs ih =>
    intro acc
    rw [List.foldl_cons]
    rcases hch : x.cls.canHandleImpl ctx with e | raw
    · have hacc : selectStep ctx minConf acc x = acc := by
        simp [selectStep, hch]
      rw [hacc]
      refine ⟨?_, ?_, (ih acc).2.2⟩
      · rcases (ih acc).1 with h | ⟨t, raw, hmem, hok, hfold, hclear, hbeat⟩
        · exact Or.inl h
        · exact Or.inr ⟨t, raw, List.mem_cons_of_mem x hmem, hok, hfold,
            hclear, hbeat⟩
      · intro u hu r hr
        rcases List.mem_cons.1 hu with h | h
        · rw [h, hch] at hr
          exact absurd hr (by simp)
        · exact (ih acc).2.1 u h r hr
    · by_cases hcond : acc.2 < adjustedConfidence x raw ∧
          minConf ≤ adjustedConfidence x raw
      · have hacc : selectStep ctx minConf acc x =
            (some x, adjustedConfidence x raw) := by
          simp [selectStep, hch, if_pos hcond]
        rw [hacc]
        have ih' := ih (some x, adjustedConfidence x raw)
        refine ⟨?_, ?_, le_trans (le_of_lt hcond.1) ih'.2.2⟩
        · rcases ih'.1 with h | ⟨t, raw2, hmem, hok, hfold, hclear, hbeat⟩
          · exact Or.inr ⟨x, raw, List.mem_cons_self x xs, hch, h, hcond.2,
              hcond.1⟩
          · exact Or.inr ⟨t, raw2, List.mem_cons_of_mem x hmem, hok, hfold,
              hclear, lt_trans hcond.1 hbeat⟩
        · intro u hu r hr
          rcases List.mem_cons.1 hu with h | h
          · subst h
            rw [hch] at hr
            have : r = raw := by
              injection hr with h
              exact h.symm
            subst this
            exact Or.inl ih'.2.2
          · exact ih'.2.1 u h r hr
      · have hacc : selectStep ctx minConf acc x = acc := by
          simp only [selectStep, hch]
          rw [if_neg hcond]
        rw [hacc]
        refine ⟨?_, ?_, (ih acc).2.2⟩
        · rcases (ih acc).1 with h | ⟨t, raw2, hmem, hok, hfold, hclear, hbeat⟩
          · exact Or.inl h
          · exact Or.inr ⟨t, raw2, List.mem_cons_of_mem x hmem, hok, hfold,
              hclear, hbeat⟩
        · intro u hu r hr
          rcases List.mem_cons.1 hu with h | h
          · subst h
            rw [hch] at hr
            have : r = raw := by
              injection hr with h
              exact h.symm
            subst this
            rcases not_and_or.1 hcond with h2 | h2
            · exact Or.inl (le_trans (not_lt.1 h2) (ih acc).2.2)
            · exact Or.inr (not_le.1 h2)
          · exact (ih acc).2.1 u h r hr

/-- A tool whose raw confidence is always `0`. -/
def c5Tool : Tool :=
  ⟨{ name := "t5", requiredParams := [], version := "1.0.0", cvRef := 0,
     canHandleImpl := fun _ => .ok 0,
     executeImpl := fun _ _ => .ok [] }, {}⟩

/-- C5 counterexample at `min_confidence = 0`: the single registered tool
answers raw confidence `0`, so its adjusted confidence `0` is maximal and
reaches `min_confidence`; the claim then demands it be returned, but
`select_tool` returns no tool (the running best starts at `0.0` and is
replaced only on a strictly greater score). -/
theorem c5_counterexample :
    selectTool [c5Tool] ctx0 0 = none ∧
    c5Tool.cls.canHandleImpl ctx0 = .ok 0 ∧
    adjustedConfidence c5Tool 0 = 0 := by
  refine ⟨?_, rfl, ?_⟩
  · show (selectStep ctx0 0 (none, 0) c5Tool).1 = none
    rw [selectStep]
    show ((if (0 : ℚ) < adjustedConfidence c5Tool 0 ∧
        (0 : ℚ) ≤ adjustedConfidence c5Tool 0 then
          (some c5Tool, adjustedConfidence c5Tool 0)
        else ((none : Option Tool), (0 : ℚ)))).1 = none
    rw [if_neg]
    rintro ⟨h1, _⟩
    rw [show adjustedConfidence c5Tool 0 = 0 from by
      rw [adjustedConfidence]; ring] at h1
    exact lt_irrefl 0 h1
  · rw [adjustedConfidence]
    ring

/-- C5 amended: for every positive `min_confidence`, a returned tool is a
registered one whose adjusted confidence `raw * (0.8 + 0.2*success_rate)`
reaches `min_confidence` and dominates every tool whose `can_handle`
succeeded; no tool is returned exactly when every such adjusted confidence
is below `min_confidence`; of two tools with the same positive raw score,
the one with the strictly higher success rate is selected (in either
registration order) whenever it clears the bar; and a tool that raises in
`can_handle` drops out without affecting the others. -/
theorem c5_amended (ctx : ToolCtx) (minConf : ℚ) (hm : 0 < minConf) :
    (∀ (tools : List Tool) (t : Tool), selectTool tools ctx minConf = some t →
      t ∈ tools ∧ ∃ raw, t.cls.canHandleImpl ctx = .ok raw ∧
        minConf ≤ adjustedConfidence t raw ∧
        ∀ u ∈ tools, ∀ r, u.cls.canHandleImpl ctx = .ok r →
          adjustedConfidence u r ≤ adjustedConfidence t raw) ∧
    (∀ tools : List Tool, selectTool tools ctx minConf = none ↔
      ∀ u ∈ tools, ∀ r, u.cls.canHandleImpl ctx = .ok r →
        adjustedConfidence u r < minConf) ∧
    (∀ t1 t2 : Tool, ∀ r : ℚ, t1.cls.canHandleImpl ctx = .ok r →
      t2.cls.canHandleImpl ctx = .ok r →
      t1.metrics.success_rate < t2.metrics.success_rate → 0 < r →
      minConf ≤ adjustedConfidence t2 r →
      selectTool [t1, t2] ctx minConf = some t2 ∧
      selectTool [t2, t1] ctx minConf = some t2) ∧
    (∀ (pre post : List Tool) (u : Tool) (e : String),
      u.cls.canHandleImpl ctx = .error e →
      selectTool (pre ++ u :: post) ctx minConf =
        selectTool (pre ++ post) ctx minConf) := by
  have spec := selectTool_fold_spec ctx minConf
  refine ⟨?_, ?_, ?_, ?_⟩
  · intro tools t ht
    rw [selectTool] at ht
    rcases (spec tools (none, 0)).1 with h | ⟨t2, raw, hmem, hok, hfold, hclear, _⟩
    · rw [h] at ht
      exact absurd ht (by simp)
    · rw [hfold] at ht
      have : t2 = t := by
        injection ht
      subst this
      refine ⟨hmem, raw, hok, hclear, ?_⟩
      intro u hu r hr
      rcases (spec tools (none, 0)).2.1 u hu r hr with h | h
      · rw [hfold] at h
        exact h
      · exact le_of_lt (lt_of_lt_of_le h hclear)
  · intro tools
    constructor
    · intro hnone u hu r hr
      rcases (spec tools (none, 0)).1 with h | ⟨t2, raw, _, _, hfold, _, _⟩
      · rcases (spec tools (none, 0)).2.1 u hu r hr with h2 | h2
        · rw [selectTool] at hnone
          rw [h] at h2
          exact lt_of_le_of_lt h2 hm
        · exact h2
      · rw [selectTool, hfold] at hnone
        exact absurd hnone (by simp)
    · intro hall
      rw [selectTool]
      rcases (spec tools (none, 0)).1 with h | ⟨t2, raw, hmem, hok, hfold, hclear, _⟩
      · rw [h]
      · exact absurd hclear (not_le.2 (hall t2 hmem raw hok))
  · intro t1 t2 r hch1 hch2 hsr hr hmc2
    have hadj : adjustedConfidence t1 r < adjustedConfidence t2 r := by
      rw [adjustedConfidence, adjustedConfidence]
      have : (0.8 : ℚ) + 0.2 * t1.metrics.success_rate <
          0.8 + 0.2 * t2.metrics.success_rate := by linarith
      exact mul_lt_mul_of_pos_left this hr
    constructor
    · show (selectStep ctx minConf (selectStep ctx minConf (none, 0) t1) t2).1 = _
      by_cases hc1 : ((none : Option Tool), (0 : ℚ)).2 <
          adjustedConfidence t1 r ∧ minConf ≤ adjustedConfidence t1 r
      · rw [show selectStep ctx minConf (none, 0) t1 =
            (some t1, adjustedConfidence t1 r) from by
          simp [selectStep, hch1, if_pos hc1]]
        rw [show selectStep ctx minConf (some t1, adjustedConfidence t1 r) t2 =
            (some t2, adjustedConfidence t2 r) from by
          simp only [selectStep, hch2]
          rw [if_pos ⟨hadj, hmc2⟩]]
      · rw [show selectStep ctx minConf (none, 0) t1 =
            ((none : Option Tool), (0 : ℚ)) from by
          simp only [selectStep, hch1]
          rw [if_neg hc1]]
        rw [show selectStep ctx minConf (none, 0) t2 =
            (some t2, adjustedConfidence t2 r) from by
          simp only [selectStep, hch2]
          rw [if_pos ⟨lt_of_lt_of_le hm hmc2, hmc2⟩]]
    · show (selectStep ctx minConf (selectStep ctx minConf (none, 0) t2) t1).1 = _
      rw [show selectStep ctx minConf (none, 0) t2 =
          (some t2, adjustedConfidence t2 r) from by
        simp only [selectStep, hch2]
        rw [if_pos ⟨lt_of_lt_of_le hm hmc2, hmc2⟩]]
      rw [show selectStep ctx minConf (some t2, adjustedConfidence t2 r) t1 =
          (some t2, adjustedConfidence t2 r) from by
        simp only [selectStep, hch1]
        rw [if_neg]
        rintro ⟨h1, _⟩
        exact absurd (lt_trans hadj h1) (lt_irrefl _)]
  · intro pre post u e hch
    rw [selectTool, selectTool, List.foldl_append, List.foldl_append,
      List.foldl_cons]
    rw [show selectStep ctx minConf (pre.foldl (selectStep ctx minConf)
        (none, 0)) u = pre.foldl (selectStep ctx minConf) (none, 0) from by
      simp [selectStep, hch]]

/-- C5 amended, witness: a lone zero-confidence tool is rejected at
`min_confidence = 1/2`. -/
theorem c5_amended_witness : selectTool [c5Tool] ctx0 (1/2) = none :=
  ((c5_amended ctx0 (1/2) (by norm_num)).2.1 [c5Tool]).2 (by
    intro u hu r hr
    rw [List.mem_singleton.1 hu] at hr
    have : r = 0 := by
      injection hr with h
      exact h.symm
    subst this
    rw [show adjustedConfidence u 0 = 0 from by rw [adjustedConfidence]; ring]
    norm_num)

/-! ## C1 — argmax routing with first-seen tie-break -/

/-- The `max` fold splits its input around the returned element: everything
strictly before the winner scores strictly less, and nothing scores more. -/
theorem foldl_maxStep_split :
    ∀ (l : List (String × ℚ)) (p : String × ℚ),
    ∃ l1 l2, p :: l = l1 ++ (l.foldl maxStep p) :: l2 ∧
      (∀ x ∈ l1, x.2 < (l.foldl maxStep p).2) ∧
      (∀ x ∈ p :: l, x.2 ≤ (l.foldl maxStep p).2) := by
  intro l
  induction l with
  | nil =>
    intro p
    exact ⟨[], [], rfl, by simp, by simp⟩
  | cons x xs ih =>
    intro p
    rw [List.foldl_cons]
    by_cases h : p.2 < x.2
    · rw [show maxStep p x = x from by simp [maxStep, h]]
      obtain ⟨l1, l2, hsplit, hlt, hle⟩ := ih x
      refine ⟨p :: l1, l2, ?_, ?_, ?_⟩
      · rw [List.cons_append, ← hsplit]
      · intro y hy
        rcases List.mem_cons.1 hy with hy | hy
        · rw [hy]
          exact lt_of_lt_of_le h (hle x (List.mem_cons_self x xs))
        · exact hlt y hy
      · intro y hy
        rcases List.mem_cons.1 hy with hy | hy
        · rw [hy]
          exact le_of_lt (lt_of_lt_of_le h (hle x (List.mem_cons_self x xs)))
        · exact hle y hy
    · rw [show maxStep p x = p from by simp [maxStep, h]]
      obtain ⟨l1, l2, hsplit, hlt, hle⟩ := ih p
      cases l1 with
      | nil =>
        simp only [List.nil_append, List.cons.injEq] at hsplit
        refine ⟨[], x :: l2, ?_, by simp, ?_⟩
        · rw [List.nil_append, ← hsplit.1, ← hsplit.2]
        · intro y hy
          rcases List.mem_cons.1 hy with hy | hy
          · rw [hy]
            exact hle p (List.mem_cons_self p xs)
          · rcases List.mem_cons.1 hy with hy | hy
            · rw [hy, ← hsplit.1]
              exact not_lt.1 h
            · exact hle y (List.mem_cons_of_mem p (hsplit.2 ▸ hy))
      | cons q t =>
        simp only [List.cons_append, List.cons.injEq] at hsplit
        refine ⟨p :: x :: t, l2, ?_, ?_, ?_⟩
        · rw [List.cons_append, List.cons_append]
          exact congrArg (fun ys => p :: x :: ys) hsplit.2
        · intro y hy
          rcases List.mem_cons.1 hy with hy | hy
          · rw [hy]
            exact hsplit.1 ▸ hlt q (List.mem_cons_self q t)
          · rcases List.mem_cons.1 hy with hy | hy
            · rw [hy]
              exact lt_of_le_of_lt (not_lt.1 h)
                (hsplit.1 ▸ hlt q (List.mem_cons_self q t))
            · exact hlt y (List.mem_cons_of_mem q hy)
        · intro y hy
          rcases List.mem_cons.1 hy with hy | hy
          · rw [hy]
            exact hle p (List.mem_cons_self p xs)
          · rcases List.mem_cons.1 hy with hy | hy
            · rw [hy]
              exact le_of_lt (lt_of_le_of_lt (not_lt.1 h)
                (hsplit.1 ▸ hlt q (List.mem_cons_self q t)))
            · exact hle y (List.mem_cons_of_mem p hy)

/-- Inversion of a successful `get_load_metrics` step. -/
theorem getLoadMetrics_cons_ok {aid : String} {meta : AgentMeta}
    {rest : Catalog} {lm : List (String × ℚ)}
    (h : getLoadMetrics ((aid, meta) :: rest) = .ok lm) :
    ∃ l ms, agentLoad meta = .ok l ∧ getLoadMetrics rest = .ok ms ∧
      lm = (aid, l) :: ms := by
  rw [getLoadMetrics] at h
  rcases hl : agentLoad meta with e | l
  · rw [hl] at h
    simp at h
  · rw [hl] at h
    rcases hr : getLoadMetrics rest with e | ms
    · rw [hr] at h
      simp at h
    · rw [hr] at h
      refine ⟨l, ms, rfl, rfl, ?_⟩
      injection h with h2
      exact h2.symm

/-- Inversion of a successful `get_performance_metrics` step. -/
theorem getPerformanceMetrics_cons_ok {aid : String} {meta : AgentMeta}
    {rest : Catalog} {pm : List (String × ℚ)}
    (h : getPerformanceMetrics ((aid, meta) :: rest) = .ok pm) :
    ∃ v ms, agentPerformance meta = .ok v ∧
      getPerformanceMetrics rest = .ok ms ∧ pm = (aid, v) :: ms := by
  rw [getPerformanceMetrics] at h
  rcases hl : agentPerformance meta with e | v
  · rw [hl] at h
    simp at h
  · rw [hl] at h
    rcases hr : getPerformanceMetrics rest with e | ms
    · rw [hr] at h
      simp at h
    · rw [hr] at h
      refine ⟨v, ms, rfl, rfl, ?_⟩
      injection h with h2
      exact h2.symm

/-- Python `get_load_metrics` reports a load for exactly the catalog's ids. -/
theorem getLoadMetrics_keys :
    ∀ (cat : Catalog) (lm : List (String × ℚ)),
    getLoadMetrics cat = .ok lm → lm.map Prod.fst = cat.map Prod.fst := by
  intro cat
  induction cat with
  | nil =>
    intro lm h
    have : lm = [] := by
      rw [getLoadMetrics] at h
      injection h with h2
      exact h2.symm
    rw [this]
    rfl
  | cons p rest ih =>
    intro lm h
    obtain ⟨aid, meta⟩ := p
    obtain ⟨l, ms, _, hr, hlm⟩ := getLoadMetrics_cons_ok h
    rw [hlm, List.map_cons, List.map_cons, ih ms hr]

/-- Python `get_performance_metrics` reports a score for exactly the catalog's
ids. -/
theorem getPerformanceMetrics_keys :
    ∀ (cat : Catalog) (pm : List (String × ℚ)),
    getPerformanceMetrics cat = .ok pm → pm.map Prod.fst = cat.map Prod.fst := by
  intro cat
  induction cat with
  | nil =>
    intro pm h
    have : pm = [] := by
      rw [getPerformanceMetrics] at h
      injection h with h2
      exact h2.symm
    rw [this]
    rfl
  | cons p rest ih =>
    intro pm h
    obtain ⟨aid, meta⟩ := p
    obtain ⟨v, ms, _, hr, hpm⟩ := getPerformanceMetrics_cons_ok h
    rw [hpm, List.map_cons, List.map_cons, ih ms hr]

/-- When load retrieval succeeds over a duplicate-free catalog, the
reported load of each agent is its own derived load. -/
theorem getLoadMetrics_lookupD :
    ∀ (cat : Catalog) (lm : List (String × ℚ)),
    getLoadMetrics cat = .ok lm → (cat.map Prod.fst).Nodup →
    ∀ p ∈ cat, agentLoad p.2 = .ok (lookupD lm p.1 1) := by
  intro cat
  induction cat with
  | nil => intro lm _ _ p hp; simp at hp
  | cons q rest ih =>
    intro lm h hnd p hp
    obtain ⟨aid, meta⟩ := q
    obtain ⟨l, ms, hl, hr, hlm⟩ := getLoadMetrics_cons_ok h
    simp only [List.map_cons, List.nodup_cons] at hnd
    rcases List.mem_cons.1 hp with hp | hp
    · rw [hp, hlm]
      simp only [lookupD, List.find?_cons, beq_self_eq_true]
      exact hl
    · have hne : p.1 ≠ aid := by
        intro hpa
        exact hnd.1 (hpa ▸ List.mem_map.2 ⟨p, hp, rfl⟩)
      rw [hlm]
      simp only [lookupD, List.find?_cons,
        show (aid == p.1) = false from beq_eq_false_iff_ne.2 (Ne.symm hne)]
      exact ih ms hr hnd.2 p hp

/-- When performance retrieval succeeds over a duplicate-free catalog, the
reported score of each agent is its own success rate. -/
theorem getPerformanceMetrics_lookupD :
    ∀ (cat : Catalog) (pm : List (String × ℚ)),
    getPerformanceMetrics cat = .ok pm → (cat.map Prod.fst).Nodup →
    ∀ p ∈ cat, agentPerformance p.2 = .ok (lookupD pm p.1 0.5) := by
  intro cat
  induction cat with
  | nil => intro pm _ _ p hp; simp at hp
  | cons q rest ih =>
    intro pm h hnd p hp
    obtain ⟨aid, meta⟩ := q
    obtain ⟨v, ms, hl, hr, hpm⟩ := getPerformanceMetrics_cons_ok h
    simp only [List.map_cons, List.nodup_cons] at hnd
    rcases List.mem_cons.1 hp with hp | hp
    · rw [hp, hpm]
      simp only [lookupD, List.find?_cons, beq_self_eq_true]
      exact hl
    · have hne : p.1 ≠ aid := by
        intro hpa
        exact hnd.1 (hpa ▸ List.mem_map.2 ⟨p, hp, rfl⟩)
      rw [hpm]
      simp only [lookupD, List.find?_cons,
        show (aid == p.1) = false from beq_eq_false_iff_ne.2 (Ne.symm hne)]
      exact ih ms hr hnd.2 p hp

theorem hasKey_iff (m : List (String × ℚ)) (k : String) :
    hasKey m k = true ↔ k ∈ m.map Prod.fst := by
  simp only [hasKey, List.any_eq_true, List.mem_map]
  constructor
  · rintro ⟨p, hp, hk⟩
    exact ⟨p, hp, beq_iff_eq.1 hk⟩
  · rintro ⟨p, hp, hk⟩
    exact ⟨p, hp, beq_iff_eq.2 hk⟩

/-- C1: when some registered agent has the required capability with status
`active`, the catalog has no duplicate ids, and metric retrieval succeeds
for all agents, `route_task` returns an active capable agent id whose score
`0.6 * success_rate + 0.4 * (1 - load)` — computed from that agent's own
reported metrics, as the final conjunct ties down — is maximal among the
active capable candidates, and every candidate preceding it in catalog
iteration order scores strictly less (first-seen tie-break). -/
theorem c1_route_argmax (cat : Catalog) (cap : String)
    (lm pm : List (String × ℚ))
    (hnd : (cat.map Prod.fst).Nodup)
    (hex : ∃ p ∈ cat, p.2.capabilities.contains cap = true ∧
      p.2.status = "active")
    (hlm : getLoadMetrics cat = .ok lm)
    (hpm : getPerformanceMetrics cat = .ok pm) :
    ∃ aid l1 l2,
      routeTask cat cap = .ok aid ∧
      activeCandidates cat cap = l1 ++ aid :: l2 ∧
      (∀ b ∈ activeCandidates cat cap,
        calculateAgentScore b lm pm ≤ calculateAgentScore aid lm pm) ∧
      (∀ b ∈ l1,
        calculateAgentScore b lm pm < calculateAgentScore aid lm pm) ∧
      (∀ p ∈ cat, agentLoad p.2 = .ok (lookupD lm p.1 1) ∧
        agentPerformance p.2 = .ok (lookupD pm p.1 0.5)) := by
  obtain ⟨pw, hpw, hcapw, hstw⟩ := hex
  have hact_ne : activeCandidates cat cap ≠ [] := by
    rw [activeCandidates]
    exact List.ne_nil_of_mem (List.mem_map.2 ⟨pw,
      List.mem_filter.2 ⟨hpw, by rw [hcapw, hstw]; simp⟩, rfl⟩)
  have hall_ne : allCandidates cat cap ≠ [] := by
    rw [allCandidates]
    exact List.ne_nil_of_mem (List.mem_map.2 ⟨pw,
      List.mem_filter.2 ⟨hpw, hcapw⟩, rfl⟩)
  have hcand : getCandidateAgents cat cap = .ok (activeCandidates cat cap) := by
    rw [getCandidateAgents, if_neg hall_ne, if_neg hact_ne]
  have hsubmem : ∀ aid ∈ activeCandidates cat cap, aid ∈ cat.map Prod.fst := by
    intro aid haid
    rcases List.mem_map.1 haid with ⟨p, hp, rfl⟩
    exact List.mem_map.2 ⟨p, List.mem_of_mem_filter hp, rfl⟩
  have hfind : (activeCandidates cat cap).find?
      (fun aid => !(hasKey lm aid && hasKey pm aid)) = none := by
    rw [List.find?_eq_none]
    intro aid haid
    have h1 : hasKey lm aid = true := (hasKey_iff lm aid).2 (by
      rw [getLoadMetrics_keys cat lm hlm]
      exact hsubmem aid haid)
    have h2 : hasKey pm aid = true := (hasKey_iff pm aid).2 (by
      rw [getPerformanceMetrics_keys cat pm hpm]
      exact hsubmem aid haid)
    simp [h1, h2]
  obtain ⟨q, qs, hA⟩ := List.exists_cons_of_ne_nil hact_ne
  obtain ⟨L1, L2, hsplit, hlt, hle⟩ :=
    foldl_maxStep_split (qs.map (scoreEntry lm pm)) (scoreEntry lm pm q)
  have hscores : (activeCandidates cat cap).map (scoreEntry lm pm) =
      scoreEntry lm pm q :: qs.map (scoreEntry lm pm) := by
    rw [hA, List.map_cons]
  have hmax : maxByScore ((activeCandidates cat cap).map (scoreEntry lm pm)) =
      some ((qs.map (scoreEntry lm pm)).foldl maxStep (scoreEntry lm pm q)) := by
    rw [hscores, maxByScore]
  obtain ⟨A1, A2', hAsplit, hm1, hm2⟩ :=
    List.append_eq_map_iff.mp (hsplit.symm.trans hscores.symm)
  cases A2' with
  | nil => exact absurd hm2 (by simp)
  | cons a A2 =>
    rw [List.map_cons] at hm2
    have hfa : scoreEntry lm pm a =
        (qs.map (scoreEntry lm pm)).foldl maxStep (scoreEntry lm pm q) := by
      injection hm2
    have hroute : routeTask cat cap =
        .ok ((qs.map (scoreEntry lm pm)).foldl maxStep (scoreEntry lm pm q)).1 := by
      rw [routeTask]
      simp only [hcand, hlm, hpm, hfind, hmax]
    refine ⟨a, A1, A2, ?_, hAsplit, ?_, ?_, ?_⟩
    · rw [hroute, ← hfa]
      rfl
    · intro b hb
      have hmem : scoreEntry lm pm b ∈
          scoreEntry lm pm q :: qs.map (scoreEntry lm pm) := by
        rw [← hscores]
        exact List.mem_map.2 ⟨b, hb, rfl⟩
      have := hle (scoreEntry lm pm b) hmem
      rw [← hfa] at this
      exact this
    · intro b hb
      have hmem : scoreEntry lm pm b ∈ L1 := by
        rw [← hm1]
        exact List.mem_map.2 ⟨b, hb, rfl⟩
      have := hlt (scoreEntry lm pm b) hmem
      rw [← hfa] at this
      exact this
    · intro p hp
      exact ⟨getLoadMetrics_lookupD cat lm hlm hnd p hp,
        getPerformanceMetrics_lookupD cat pm hpm hnd p hp⟩

/-- Agent1 of the specification's worked example:
`success_rate = 0.9`, `load = 0.3`, active, capability `task`. -/
def c1Agent1 : AgentMeta :=
  { capabilities := ["task"]
    status := "active"
    load := some (.num (3/10))
    performance := some (.dict (some (.num (9/10))) none none) }

/-- Agent2 of the specification's worked example:
`success_rate = 0.7`, `load = 0.8`, active, capability `task`. -/
def c1Agent2 : AgentMeta :=
  { capabilities := ["task"]
    status := "active"
    load := some (.num (8/10))
    performance := some (.dict (some (.num (7/10))) none none) }

/-- The two-agent catalog of the specification's worked example. -/
def c1Cat : Catalog := [("agent1", c1Agent1), ("agent2", c1Agent2)]

/-- C1 witness at the specification's example catalog. -/
theorem c1_route_argmax_witness :
    ∃ aid l1 l2,
      routeTask c1Cat ("task") = .ok aid ∧
      activeCandidates c1Cat ("task") = l1 ++ aid :: l2 ∧
      (∀ b ∈ activeCandidates c1Cat ("task"),
        calculateAgentScore b [("agent1", 3/10), ("agent2", 8/10)]
            [("agent1", 9/10), ("agent2", 7/10)] ≤
          calculateAgentScore aid [("agent1", 3/10), ("agent2", 8/10)]
            [("agent1", 9/10), ("agent2", 7/10)]) ∧
      (∀ b ∈ l1,
        calculateAgentScore b [("agent1", 3/10), ("agent2", 8/10)]
            [("agent1", 9/10), ("agent2", 7/10)] <
          calculateAgentScore aid [("agent1", 3/10), ("agent2", 8/10)]
            [("agent1", 9/10), ("agent2", 7/10)]) ∧
      (∀ p ∈ c1Cat,
        agentLoad p.2 =
          .ok (lookupD [("agent1", 3/10), ("agent2", 8/10)] p.1 1) ∧
        agentPerformance p.2 =
          .ok (lookupD [("agent1", 9/10), ("agent2", 7/10)] p.1 0.5)) :=
  c1_route_argmax c1Cat ("task")
    [("agent1", 3/10), ("agent2", 8/10)] [("agent1", 9/10), ("agent2", 7/10)]
    (by simp [c1Cat])
    ⟨("agent1", c1Agent1), by simp [c1Cat], rfl, rfl⟩
    rfl rfl

/-! ## C10 — bad metrics anywhere in the catalog abort routing -/

/-- Every failure of `get_load_metrics` is an `InvalidMetrics` error. -/
theorem getLoadMetrics_error :
    ∀ (cat : Catalog) (e : RouteErr), getLoadMetrics cat = .error e →
    ∃ a, e = .invalidMetrics a := by
  intro cat
  induction cat with
  | nil => intro e h; exact absurd h (by rw [getLoadMetrics]; simp)
  | cons p rest ih =>
    intro e h
    obtain ⟨aid, meta⟩ := p
    rw [getLoadMetrics] at h
    rcases hl : agentLoad meta with e2 | l
    · rw [hl] at h
      refine ⟨aid, ?_⟩
      injection h with h2
      exact h2.symm
    · rw [hl] at h
      rcases hr : getLoadMetrics rest with e2 | ms
      · rw [hr] at h
        have h3 : e2 = e := by injection h
        exact h3 ▸ ih e2 hr
      · rw [hr] at h
        exact absurd h (by simp)

/-- Every failure of `get_performance_metrics` is an `InvalidMetrics`
error. -/
theorem getPerformanceMetrics_error :
    ∀ (cat : Catalog) (e : RouteErr), getPerformanceMetrics cat = .error e →
    ∃ a, e = .invalidMetrics a := by
  intro cat
  induction cat with
  | nil => intro e h; exact absurd h (by rw [getPerformanceMetrics]; simp)
  | cons p rest ih =>
    intro e h
    obtain ⟨aid, meta⟩ := p
    rw [getPerformanceMetrics] at h
    rcases hl : agentPerformance meta with e2 | v
    · rw [hl] at h
      refine ⟨aid, ?_⟩
      injection h with h2
      exact h2.symm
    · rw [hl] at h
      rcases hr : getPerformanceMetrics rest with e2 | ms
      · rw [hr] at h
        have h3 : e2 = e := by injection h
        exact h3 ▸ ih e2 hr
      · rw [hr] at h
        exact absurd h (by simp)

/-- A catalog whose only agent is active and capable of `c` but carries a
performance block without `success_rate`. -/
def c10Cat : Catalog :=
  [("a", { capabilities := ["c"], status := "active",
           load := some (.num 1),
           performance := some (.dict none none none) })]

/-- C10 counterexample: metric retrieval fails for the agent (its
performance block lacks `success_rate`), yet `route_task` for the
capability `d` — which no agent has — aborts with `NoCapableAgents`, not
`InvalidMetrics`: candidates are checked before metrics are collected, so
the claim's "for every capability" fails. -/
theorem c10_counterexample :
    getPerformanceMetrics c10Cat = .error (.invalidMetrics ("a")) ∧
    routeTask c10Cat ("d") = .error (.noCapableAgents ("d")) :=
  ⟨rfl, rfl⟩

/-- C10 amended: whenever candidate selection succeeds for a capability and
metric retrieval fails for any registered agent — candidate or not, since
both metric passes iterate over the whole catalog — `route_task` aborts
with an `InvalidMetrics` error. -/
theorem c10_amended (cat : Catalog) (cap : String) (cands : List String)
    (hc : getCandidateAgents cat cap = .ok cands)
    (hbad : (∃ e, getLoadMetrics cat = .error e) ∨
      (∃ e, getPerformanceMetrics cat = .error e)) :
    ∃ aid, routeTask cat cap = .error (.invalidMetrics aid) := by
  rcases hlmc : getLoadMetrics cat with e | lm
  · rcases getLoadMetrics_error cat e hlmc with ⟨a, rfl⟩
    refine ⟨a, ?_⟩
    rw [routeTask]
    simp only [hc, hlmc]
  · rcases hbad with ⟨e, he⟩ | ⟨e, he⟩
    · rw [hlmc] at he
      exact absurd he (by simp)
    · rcases getPerformanceMetrics_error cat e he with ⟨a, rfl⟩
      refine ⟨a, ?_⟩
      rw [routeTask]
      simp only [hc, hlmc, he]

/-- The catalog of the C10 witness: a healthy candidate plus a non-candidate
agent whose explicit `load` cannot be converted to a number. -/
def c10WCat : Catalog :=
  [("good", { capabilities := ["c"], status := "active",
              load := some (.num (1/2)),
              performance := some (.dict (some (.num 1)) none none) }),
   ("bad", { capabilities := [], status := "inactive",
             load := some .bad, performance := none })]

/-- C10 amended, witness: the corrupt non-candidate agent aborts routing of
capability `c` even though the only candidate is healthy. -/
theorem c10_amended_witness :
    ∃ aid, routeTask c10WCat ("c") = .error (.invalidMetrics aid) :=
  c10_amended c10WCat ("c") ["good"] rfl
    (Or.inl ⟨.invalidMetrics ("bad"), rfl⟩)

end FastChain
